import Mathlib

/-!
Verification of the mtd task tracker's reconciliation engine and transport.

A shallow embedding of the `mtd` crate (`src/lib.rs`, `src/network.rs`):
the item model (`Todo`, `Task`), the generic synchronizable list
(`SyncList`), the replica type (`TdList`) and its operations, the client
side of the sync transport (`MtdNetMgr::client_sync`) and the crypto
codec's `decrypt`, together with theorems settling the specification's
claims about them.

Conventions: `u64` values become `Nat`; `chrono::NaiveDate` becomes `Int`
(days, linearly ordered; `succ` is `+ 1`); `chrono::Weekday` becomes
`Fin 7`; a `HashMap<Weekday, NaiveDate>` becomes a function
`Fin 7 → Option Int` (extensional, like the map's `PartialEq`);
a Rust `Result`/`Option` becomes `Except`/`Option`; a Rust `panic!`
becomes the `none` branch of an `Option`-valued embedding.
-/

namespace Mtd

/-- The per-item change marker (`enum ItemState` in `lib.rs`). -/
inductive ItemState where
  | new
  | removed
  | unchanged
  | changed
deriving DecidableEq, Repr

/-- A synchronizable item, generic over its mutable payload `F`
(`body`/`date`/`done` for a `Todo`, `body`/`weekdays`/`done_map` for a
`Task`).  Models the fields shared by `Todo` and `Task` that the
`SyncItem` trait exposes: `PartialEq` on the Rust items compares exactly
`fields`, and `update_old` copies exactly `fields`. -/
structure SItem (F : Type) where
  fields : F
  id : Nat
  syncId : Nat
  state : ItemState
deriving DecidableEq, Repr

/-- Model of `SyncList<T>`: the ordered collection one reconciliation pass works on. -/
structure SyncList (F : Type) where
  items : List (SItem F)
  server : Bool
deriving DecidableEq, Repr

variable {F : Type}

/-- First item with the given `sync_id`
(`SyncList::get_item_by_sync_id`: `.iter_mut().filter(..).next()`). -/
def findSync (σ : Nat) : List (SItem F) → Option (SItem F)
  | [] => none
  | x :: xs => if x.syncId = σ then some x else findSync σ xs

/-- Mutating the first item that satisfies `p` in place, as
`if let Some(i) = get_item_by_sync_id(..) { ... }` does. -/
def updateFirstBy (p : SItem F → Bool) (f : SItem F → SItem F) :
    List (SItem F) → List (SItem F)
  | [] => []
  | x :: xs => if p x then f x :: xs else x :: updateFirstBy p f xs

/-- Model of `SyncList::map_indices_to_ids`: renumber `id` to the positional
index, counting from `n` (the Rust code enumerates from 0). -/
def mapIndicesToIds (n : Nat) : List (SItem F) → List (SItem F)
  | [] => []
  | x :: xs => { x with id := n } :: mapIndicesToIds (n + 1) xs

/-- Model of `SyncList::add`: set the marker to `New` and push. -/
def SyncList.add (l : SyncList F) (item : SItem F) : SyncList F :=
  { l with items := l.items ++ [{ item with state := ItemState.new }] }

/-- The live (non-`Removed`) items, in order (`SyncList::items`). -/
def liveItems (items : List (SItem F)) : List (SItem F) :=
  items.filter (fun it => it.state ≠ ItemState.removed)

/-- Model of `SyncList::get_item_mut`: raw positional indexing into the underlying
vector, tombstones included. -/
def SyncList.getItem (l : SyncList F) (id : Nat) : Option (SItem F) :=
  l.items.get? id

/-- The normalize sweep applied to the raw item vector
(`SyncList::sync_self`): drop `Removed` items, renumber ids, reset all
markers to `Unchanged`. -/
def syncSelfItems (items : List (SItem F)) : List (SItem F) :=
  (mapIndicesToIds 0 (liveItems items)).map
    (fun it => { it with state := ItemState.unchanged })

/-- Model of `SyncList::sync_self` on the whole list. -/
def SyncList.syncSelf (l : SyncList F) : SyncList F :=
  { l with items := syncSelfItems l.items }

/-- Model of `SyncList::mark_removed`.  `none` models the `Err(())` return: the
index is past the end of the underlying vector, or the item there is
already `Removed`.  On a server-role list the tombstone is dropped at
once and ids are renumbered. -/
def SyncList.markRemoved (l : SyncList F) (id : Nat) : Option (SyncList F) :=
  if h : id < l.items.length then
    let item := l.items.get ⟨id, h⟩
    if item.state = ItemState.removed then none
    else
      let marked := l.items.set id { item with state := ItemState.removed }
      if l.server then
        some { l with items := mapIndicesToIds 0 (liveItems marked) }
      else
        some { l with items := marked }
  else none

/-- One iteration of the first merge loop of `SyncList::sync`, processing
one client-side item against the server-side item vector.  Returns the
(possibly updated) client item and the updated server vector. -/
def syncStep (x : SItem F) [DecidableEq F] (s : List (SItem F)) :
    SItem F × List (SItem F) :=
  match x.state with
  | ItemState.new =>
      -- server_list.add(item.clone())
      (x, s ++ [{ x with state := ItemState.new }])
  | ItemState.removed =>
      -- mark the matching server item (if any) Removed
      (x, updateFirstBy (fun it => it.syncId == x.syncId)
            (fun it => { it with state := ItemState.removed }) s)
  | ItemState.unchanged =>
      match findSync x.syncId s with
      | some sIt =>
          -- if s_item != item { s_item.update_old(item) }
          if sIt.fields = x.fields then (x, s)
          else ({ x with fields := sIt.fields }, s)
      | none =>
          -- deleted on the server: tombstone the client copy
          ({ x with state := ItemState.removed }, s)
  | ItemState.changed =>
      match findSync x.syncId s with
      | some _ =>
          -- item.update_old(s_item): the client edit wins
          (x, updateFirstBy (fun it => it.syncId == x.syncId)
                (fun it => { it with fields := x.fields }) s)
      | none =>
          -- (re)create the item server side
          (x, s ++ [{ x with state := ItemState.new }])

/-- The first merge loop of `SyncList::sync`: every client item is
processed in order; the loop mutates the current client item and the
server vector only. -/
def syncLoop1 [DecidableEq F] :
    List (SItem F) → List (SItem F) → List (SItem F) × List (SItem F)
  | [], s => ([], s)
  | x :: xs, s =>
      let p := syncStep x s
      let q := syncLoop1 xs p.2
      (p.1 :: q.1, q.2)

/-- The second merge loop of `SyncList::sync`: every non-`Removed`
server item whose `sync_id` is absent from the (growing) client vector
is appended to it via `client_list.add`. -/
def syncLoop2 [DecidableEq F] (sItems : List (SItem F)) (c : List (SItem F)) :
    List (SItem F) :=
  sItems.foldl
    (fun c it =>
      if it.state ≠ ItemState.removed ∧ findSync it.syncId c = none
      then c ++ [{ it with state := ItemState.new }]
      else c) c

/-- The body of `SyncList::sync` after role designation, with `c` the
client-designated list and `s` the server-designated one; both end with
the normalize sweep. -/
def mergeRun [DecidableEq F] (c s : SyncList F) : SyncList F × SyncList F :=
  let p := syncLoop1 c.items s.items
  let c2 := syncLoop2 p.2 p.1
  ({ c with items := syncSelfItems c2 }, { s with items := syncSelfItems p.2 })

/-- Model of `SyncList::sync`.  `none` models the two `panic!`s: both sides
server, or neither side server; the check precedes every item access.
On `some (a', b')`, `a'` is the post-state of `self` and `b'` of
`other`. -/
def SyncList.sync [DecidableEq F] (a b : SyncList F) :
    Option (SyncList F × SyncList F) :=
  if a.server = b.server then none
  else if a.server then
    let p := mergeRun b a
    some (p.2, p.1)
  else
    let p := mergeRun a b
    some (p.1, p.2)

/-! ## The concrete item kinds -/

/-- Model of `chrono::Weekday`, as the seven residues. -/
abbrev Wd := Fin 7

/-- Model of `chrono::NaiveDate`, as a day count.  `succ` is `+ 1`. -/
abbrev Date := Int

/-- The weekday of a date (periodic with period 7, as for `NaiveDate`). -/
def dateWeekday (d : Date) : Wd :=
  ⟨(d % 7).toNat, by
    have h0 : (0 : Int) ≤ d % 7 := Int.emod_nonneg d (by decide)
    have h7 : d % 7 < 7 := Int.emod_lt_of_pos d (by decide)
    omega⟩

/-- Model of `weekday_to_date`: the first date `≥ today` falling on `w`.  The Rust
function is the loop `while today.weekday() != w { today = today.succ() }`;
this is its closed form. -/
def weekdayToDate (w : Wd) (today : Date) : Date :=
  today + ((w.val : Int) - today % 7) % 7

/-- The mutable payload of a `Todo`: exactly the fields its `PartialEq`
compares and its `update_old` copies. -/
structure TodoFields where
  body : String
  date : Date
  done : Option Date
deriving DecidableEq, Repr

/-- The mutable payload of a `Task`.  The `done_map` hash map is modelled
extensionally, as `HashMap` equality is. -/
structure TaskFields where
  body : String
  weekdays : List Wd
  doneMap : Wd → Option Date

instance : DecidableEq TaskFields := fun a b =>
  decidable_of_iff
    (a.body = b.body ∧ a.weekdays = b.weekdays ∧ a.doneMap = b.doneMap)
    (by cases a; cases b; simp)

/-- A `Todo` with its identity and marker fields. -/
abbrev TodoItem := SItem TodoFields

/-- A `Task` with its identity and marker fields. -/
abbrev TaskItem := SItem TaskFields

/-- Model of `Todo::new_undated` / `new_dated` / `new_specific_date`, with the
randomly drawn `sync_id` made explicit. -/
def mkTodo (body : String) (date : Date) (syncId : Nat) : TodoItem :=
  { fields := { body := body, date := date, done := none },
    id := 0, syncId := syncId, state := ItemState.unchanged }

/-- Model of `Todo::set_body`. -/
def todoSetBody (t : TodoItem) (b : String) : TodoItem :=
  { t with fields := { t.fields with body := b }, state := ItemState.changed }

/-- Model of `Todo::set_weekday`. -/
def todoSetWeekday (t : TodoItem) (w : Wd) (today : Date) : TodoItem :=
  { t with
    fields := { t.fields with date := weekdayToDate w today },
    state := ItemState.changed }

/-- Model of `Todo::set_done_wtd`. -/
def todoSetDone (t : TodoItem) (done : Bool) (today : Date) : TodoItem :=
  { t with
    fields := { t.fields with done := if done then some today else none },
    state := ItemState.changed }

/-- Model of `Todo::can_remove_wtd`: done, and strictly before today. -/
def todoCanRemove (t : TodoItem) (today : Date) : Bool :=
  match t.fields.done with
  | some doneDate => decide (doneDate < today)
  | none => false

/-- Model of `Task::new`, with the random `sync_id` explicit (the empty-weekday
panic is irrelevant to the claims and not modelled: callers pass the
weekday list). -/
def mkTask (body : String) (weekdays : List Wd) (syncId : Nat) : TaskItem :=
  { fields := { body := body, weekdays := weekdays, doneMap := fun _ => none },
    id := 0, syncId := syncId, state := ItemState.unchanged }

/-- Model of `Task::set_body`. -/
def taskSetBody (t : TaskItem) (b : String) : TaskItem :=
  { t with fields := { t.fields with body := b }, state := ItemState.changed }

/-- Model of `Task::set_weekdays`. -/
def taskSetWeekdays (t : TaskItem) (ws : List Wd) : TaskItem :=
  { t with
    fields := { t.fields with weekdays := ws },
    state := ItemState.changed }

/-- Model of `Task::add_weekday` (push; duplicates kept). -/
def taskAddWeekday (t : TaskItem) (w : Wd) : TaskItem :=
  { t with
    fields := { t.fields with weekdays := t.fields.weekdays ++ [w] },
    state := ItemState.changed }

/-- Model of `Task::remove_weekday`: keep the non-matching weekdays and hand the
result to `set_weekdays`. -/
def taskRemoveWeekday (t : TaskItem) (w : Wd) : TaskItem :=
  taskSetWeekdays t (t.fields.weekdays.filter (fun x => x ≠ w))

/-- Model of `Task::set_done`: insert into / remove from `done_map` keyed by the
date's weekday.  Note: the Rust method does not touch `self.state`. -/
def taskSetDone (t : TaskItem) (done : Bool) (date : Date) : TaskItem :=
  { t with fields :=
      { t.fields with doneMap := fun w =>
          if w = dateWeekday date then (if done then some date else none)
          else t.fields.doneMap w } }

/-- Model of `Task::for_date`. -/
def taskForDate (t : TaskItem) (date : Date) : Bool :=
  t.fields.weekdays.contains (dateWeekday date)

/-- Model of `Task::done`. -/
def taskDone (t : TaskItem) (date : Date) : Bool :=
  if taskForDate t date then
    match t.fields.doneMap (dateWeekday date) with
    | some d => decide (date ≤ d)
    | none => false
  else true

/-! ## The replica: `TdList` -/

/-- Model of `TdList`: one `SyncList` per item kind plus the role flag. -/
structure TdListM where
  todos : SyncList TodoFields
  tasks : SyncList TaskFields
  server : Bool
deriving DecidableEq

/-- Model of `TdList::new_client`. -/
def TdListM.newClient : TdListM :=
  { todos := { items := [], server := false },
    tasks := { items := [], server := false }, server := false }

/-- Model of `TdList::new_server`. -/
def TdListM.newServer : TdListM :=
  { todos := { items := [], server := true },
    tasks := { items := [], server := true }, server := true }

/-- Model of `TdList::add_todo`: set the id to the raw vector length, then
`SyncList::add` (which sets the marker to `New`). -/
def TdListM.addTodo (l : TdListM) (t : TodoItem) : TdListM :=
  { l with todos := l.todos.add { t with id := l.todos.items.length } }

/-- Model of `TdList::add_task`. -/
def TdListM.addTask (l : TdListM) (t : TaskItem) : TdListM :=
  { l with tasks := l.tasks.add { t with id := l.tasks.items.length } }

/-- Model of `TdList::remove_todo`; `none` models `Err(NoTodoWithGivenIdErr)`. -/
def TdListM.removeTodo (l : TdListM) (id : Nat) : Option TdListM :=
  (l.todos.markRemoved id).map (fun ts => { l with todos := ts })

/-- Model of `TdList::remove_task`; `none` models `Err(NoTaskWithGivenIdErr)`. -/
def TdListM.removeTask (l : TdListM) (id : Nat) : Option TdListM :=
  (l.tasks.markRemoved id).map (fun ts => { l with tasks := ts })

/-- Model of `TdList::get_todo_mut`: raw indexing, tombstones included. -/
def TdListM.getTodo (l : TdListM) (id : Nat) : Option TodoItem :=
  l.todos.getItem id

/-- Model of `TdList::get_task_mut`. -/
def TdListM.getTask (l : TdListM) (id : Nat) : Option TaskItem :=
  l.tasks.getItem id

/-- Applying a setter through the mutable handle returned by
`get_todo_mut`: if the raw index is in range the item is replaced by
`f item`, otherwise nothing happens (the caller got `None`). -/
def TdListM.modifyTodo (l : TdListM) (id : Nat) (f : TodoItem → TodoItem) :
    TdListM :=
  match l.todos.items.get? id with
  | some t => { l with todos := { l.todos with items := l.todos.items.set id (f t) } }
  | none => l

/-- Applying a setter through the handle returned by `get_task_mut`. -/
def TdListM.modifyTask (l : TdListM) (id : Nat) (f : TaskItem → TaskItem) :
    TdListM :=
  match l.tasks.items.get? id with
  | some t => { l with tasks := { l.tasks with items := l.tasks.items.set id (f t) } }
  | none => l

/-- The marking applied to one `Todo` by `remove_old_todos_wtd`. -/
def markOldTodo (today : Date) (t : TodoItem) : TodoItem :=
  if todoCanRemove t today then { t with state := ItemState.removed } else t

/-- Model of `TdList::remove_old_todos_wtd`: mark every removable `Todo`
`Removed`; a server-role replica drops all `Removed` items at once
(without renumbering — ids are renumbered only by the next sweep). -/
def TdListM.removeOldTodos (l : TdListM) (today : Date) : TdListM :=
  let marked := l.todos.items.map (markOldTodo today)
  { l with todos :=
      { l.todos with items := if l.server then liveItems marked else marked } }

/-- Model of `TdList::self_sync` (with `today` explicit). -/
def TdListM.selfSync (l : TdListM) (today : Date) : TdListM :=
  let l1 := l.removeOldTodos today
  { l1 with todos := l1.todos.syncSelf, tasks := l1.tasks.syncSelf }

/-- Model of `TdList::sync` (with `today` explicit): the stale-`Todo` pre-pass on
both replicas, then one merge per item kind.  `none` models the panic
inside `SyncList::sync`. -/
def TdListM.sync (today : Date) (a b : TdListM) : Option (TdListM × TdListM) :=
  let a1 := a.removeOldTodos today
  let b1 := b.removeOldTodos today
  match a1.todos.sync b1.todos, a1.tasks.sync b1.tasks with
  | some pTodos, some pTasks =>
      some ({ a1 with todos := pTodos.1, tasks := pTasks.1 },
            { b1 with todos := pTodos.2, tasks := pTasks.2 })
  | _, _ => none

/-! ## The sync transport, client side (`MtdNetMgr::client_sync`)

The byte stream is modelled by an oracle (`NetEnv`) giving the outcome of
each network interaction in program order: the decrypted contents of the
three reads and the success or failure of the connection setup and the
three encrypted writes.  Deserialization of the server's replica
(`TdList::new_from_json`) is an abstract parameter, as is serialization
(whose failure is folded into the failure of the write that carries it).
Bytes are `Nat`s. -/

/-- The error values `client_sync` can surface (`Error` in the crate). -/
inductive NError where
  | ioErr
  | authFailed
  | serdeErr
  | decryptingFailed
  | encryptingFailed
  | unknown
deriving DecidableEq, Repr

/-- The oracle for one `client_sync` call. -/
structure NetEnv where
  /-- Model of `TcpStream::connect` plus the two `set_*_timeout` calls. -/
  conn : Option NError
  /-- sending the random challenge. -/
  w1 : Option NError
  /-- the decrypted first response (session id ‖ echoed challenge). -/
  r1 : Except NError (List Nat)
  /-- sending `sid ‖ "read"`. -/
  w2 : Option NError
  /-- the decrypted second response (sid ‖ serialized server replica). -/
  r2 : Except NError (List Nat)
  /-- serializing and sending `sid ‖ merged server replica`. -/
  w3 : Option NError
  /-- the decrypted confirmation (sid ‖ `"ok"`). -/
  r3 : Except NError (List Nat)

/-- The bytes of the literal `"ok"`. -/
def okBytes : List Nat := [111, 107]

/-- Model of `MtdNetMgr::check_sid`: an incoming message must be at least 8 bytes
and start with the session id; the rest is the payload. -/
def checkSid (sid msg : List Nat) : Except NError (List Nat) :=
  if 8 ≤ msg.length ∧ msg.take 8 = sid then Except.ok (msg.drop 8)
  else Except.error NError.authFailed

/-- Model of `MtdNetMgr::client_sync`.  `parse` models `TdList::new_from_json` on
the received payload; `authData` is the random 8-byte challenge; `list`
is `self.td_list`.  The result pairs the returned `Result` with the
final value of `self.td_list`; `none` models a panic (server-role list,
or the panic inside `TdList::sync`).  The function performs no
persistence. -/
def clientSync (today : Date) (parse : List Nat → Except NError TdListM)
    (authData : List Nat) (env : NetEnv) (list : TdListM) :
    Option (Except NError Unit × TdListM) :=
  if list.server then none
  else match env.conn with
  | some e => some (Except.error e, list)
  | none => match env.w1 with
    | some e => some (Except.error e, list)
    | none => match env.r1 with
      | Except.error e => some (Except.error e, list)
      | Except.ok msg =>
        if msg.length < 16 then some (Except.error NError.authFailed, list)
        else
          let sid := msg.take 8
          if msg.drop 8 ≠ authData then
            some (Except.error NError.authFailed, list)
          else match env.w2 with
          | some e => some (Except.error e, list)
          | none => match env.r2 with
            | Except.error e => some (Except.error e, list)
            | Except.ok m2 => match checkSid sid m2 with
              | Except.error e => some (Except.error e, list)
              | Except.ok payload => match parse payload with
                | Except.error e => some (Except.error e, list)
                | Except.ok server => match TdListM.sync today list server with
                  | none => none
                  | some merged => match env.w3 with
                    | some e => some (Except.error e, merged.1)
                    | none => match env.r3 with
                      | Except.error e => some (Except.error e, merged.1)
                      | Except.ok m3 => match checkSid sid m3 with
                        | Except.error e => some (Except.error e, merged.1)
                        | Except.ok conf =>
                          if conf = okBytes then some (Except.ok (), merged.1)
                          else some (Except.error NError.unknown, merged.1)

/-! ## The crypto codec's `decrypt` (`network.rs`, `mod crypt`)

The key derivation (`Argon2::hash_password_into`) and the authenticated
cipher (`Aes256Gcm::decrypt`) are external library calls, modelled as
abstract parameters; what is embedded is the repository's own control
flow over the ciphertext bytes: the slices `&ciphertext[0..16]`
(key salt), `&ciphertext[16..28]` (nonce) and `&ciphertext[28..]`
(payload).  A Rust slice `&v[a..b]` with `b > v.len()` panics. -/

/-- The observable outcome of a `crypt::decrypt` call. -/
inductive CryptOutcome where
  /-- a slice index was out of range: the process panics. -/
  | panicked
  /-- Model of `Err(Error::DecryptingErr)` returned to the caller. -/
  | failed
  /-- Model of `Ok(plaintext)`. -/
  | ok (msg : List Nat)
deriving DecidableEq, Repr

/-- Model of `crypt::decrypt`.  `kdf passwd salt` abstracts the Argon2 password
hash (`none` = hashing error); `aeadOpen key nonce data` abstracts
AES-GCM open (`none` = authentication failure).  The order of
operations follows the source: salt slice, key derivation, nonce slice,
authenticated decryption. -/
def decrypt (kdf : List Nat → List Nat → Option (List Nat))
    (aeadOpen : List Nat → List Nat → List Nat → Option (List Nat))
    (ciphertext passwd : List Nat) : CryptOutcome :=
  if ciphertext.length < 16 then CryptOutcome.panicked
  else
    let keySalt := ciphertext.take 16
    match kdf passwd keySalt with
    | none => CryptOutcome.failed
    | some key =>
      if ciphertext.length < 28 then CryptOutcome.panicked
      else
        let nonce := (ciphertext.drop 16).take 12
        match aeadOpen key nonce (ciphertext.drop 28) with
        | none => CryptOutcome.failed
        | some msg => CryptOutcome.ok msg

/-! ## Sequences of public replica operations

The operations the specification's id invariant ranges over:
add, remove, mutation through the mutable handles, `sync` and
`self_sync`.  A panicking `sync` produces no post-state at all, so the
step function leaves the replica unchanged in that case. -/

/-- One public operation on a `TdList`. -/
inductive Op where
  | addTodo (t : TodoItem)
  | addTask (t : TaskItem)
  | removeTodo (id : Nat)
  | removeTask (id : Nat)
  | setTodoBody (id : Nat) (b : String)
  | setTodoWeekday (id : Nat) (w : Wd) (today : Date)
  | setTodoDone (id : Nat) (d : Bool) (today : Date)
  | setTaskBody (id : Nat) (b : String)
  | setTaskWeekdays (id : Nat) (ws : List Wd)
  | addTaskWeekday (id : Nat) (w : Wd)
  | removeTaskWeekday (id : Nat) (w : Wd)
  | setTaskDone (id : Nat) (d : Bool) (date : Date)
  | selfSync (today : Date)
  /-- this replica is `self` in `self.sync(other)`. -/
  | syncWith (today : Date) (other : TdListM)
  /-- this replica is `other` in `peer.sync(self)`. -/
  | syncAsPeer (today : Date) (peer : TdListM)

/-- The effect of one operation on a replica.  A failed remove
(`Err(NoTodoWithGivenIdErr)`) and an out-of-range mutation
(`get_*_mut` returning `None`) leave the replica unchanged. -/
def Op.step (op : Op) (l : TdListM) : TdListM :=
  match op with
  | Op.addTodo t => l.addTodo t
  | Op.addTask t => l.addTask t
  | Op.removeTodo id => (l.removeTodo id).getD l
  | Op.removeTask id => (l.removeTask id).getD l
  | Op.setTodoBody id b => l.modifyTodo id (fun t => todoSetBody t b)
  | Op.setTodoWeekday id w today => l.modifyTodo id (fun t => todoSetWeekday t w today)
  | Op.setTodoDone id d today => l.modifyTodo id (fun t => todoSetDone t d today)
  | Op.setTaskBody id b => l.modifyTask id (fun t => taskSetBody t b)
  | Op.setTaskWeekdays id ws => l.modifyTask id (fun t => taskSetWeekdays t ws)
  | Op.addTaskWeekday id w => l.modifyTask id (fun t => taskAddWeekday t w)
  | Op.removeTaskWeekday id w => l.modifyTask id (fun t => taskRemoveWeekday t w)
  | Op.setTaskDone id d date => l.modifyTask id (fun t => taskSetDone t d date)
  | Op.selfSync today => l.selfSync today
  | Op.syncWith today other =>
      match TdListM.sync today l other with
      | some p => p.1
      | none => l
  | Op.syncAsPeer today peer =>
      match TdListM.sync today peer l with
      | some p => p.2
      | none => l

/-- The replica states reachable from `new_client` / `new_server` by
public operations. -/
inductive Reachable : TdListM → Prop where
  | client : Reachable TdListM.newClient
  | server : Reachable TdListM.newServer
  | step (op : Op) {l : TdListM} : Reachable l → Reachable (op.step l)

/-- The claim's id/position property over a given item vector: ids read
off in order are exactly `0, 1, 2, …`. -/
def idsMatchPositions (items : List (SItem F)) : Prop :=
  items.map SItem.id = List.range items.length

/-! ## The per-`sync_id` outcome of one merge

`mergeOutC`/`mergeOutS` give, for one `sync_id`, the mutable fields the
client-designated respectively server-designated list holds after
`SyncList::sync`, as a function of the two copies it held before
(`none` = no item with that `sync_id` survives).  They are read off the
merge algorithm's four branches plus the final sweeps. -/

/-- All `sync_id`s of an item vector, in order. -/
def syncIds (items : List (SItem F)) : List Nat :=
  items.map SItem.syncId

/-- Post-merge content of the client-designated list for one `sync_id`,
from the pre-merge copies `cx` (client side) and `sx` (server side). -/
def mergeOutC (cx sx : Option (SItem F)) : Option F :=
  match cx with
  | some x =>
    match x.state with
    | ItemState.removed => none
    | ItemState.new => some x.fields
    | ItemState.changed => some x.fields
    | ItemState.unchanged =>
        match sx with
        | some y => some y.fields
        | none => none
  | none =>
    match sx with
    | some y => if y.state = ItemState.removed then none else some y.fields
    | none => none

/-- Post-merge content of the server-designated list for one `sync_id`. -/
def mergeOutS (cx sx : Option (SItem F)) : Option F :=
  match cx with
  | some x =>
    match x.state with
    | ItemState.removed => none
    | ItemState.new => some x.fields
    | ItemState.changed =>
        match sx with
        | some y => if y.state = ItemState.removed then none else some x.fields
        | none => some x.fields
    | ItemState.unchanged =>
        match sx with
        | some y => if y.state = ItemState.removed then none else some y.fields
        | none => none
  | none =>
    match sx with
    | some y => if y.state = ItemState.removed then none else some y.fields
    | none => none

/-- Content of the client-designated vector for one `sync_id` right
after the first merge loop (before the server sweep-back and the
normalize sweeps), from the two pre-merge copies. -/
def loop1OutC [DecidableEq F] (cx sx : Option (SItem F)) : Option (SItem F) :=
  match cx with
  | none => none
  | some x =>
    match x.state with
    | ItemState.new => some x
    | ItemState.removed => some x
    | ItemState.changed => some x
    | ItemState.unchanged =>
        match sx with
        | some y =>
            some (if y.fields = x.fields then x
                  else { x with fields := y.fields })
        | none => some { x with state := ItemState.removed }

/-- Content of the server-designated vector for one `sync_id` right
after the first merge loop. -/
def loop1OutS (cx sx : Option (SItem F)) : Option (SItem F) :=
  match cx with
  | none => sx
  | some x =>
    match x.state with
    | ItemState.new => some { x with state := ItemState.new }
    | ItemState.removed =>
        sx.map (fun y => { y with state := ItemState.removed })
    | ItemState.unchanged => sx
    | ItemState.changed =>
        match sx with
        | some y => some { y with fields := x.fields }
        | none => some { x with state := ItemState.new }

/-- The client-side copy of one `Todo` as the stale-`Todo` pre-pass of
`TdList::sync` leaves it (marked in place). -/
def preOutClient (today : Date) (cx : Option TodoItem) : Option TodoItem :=
  cx.map (markOldTodo today)

/-- The server-side copy of one `Todo` as the stale-`Todo` pre-pass of
`TdList::sync` leaves it (marked, then dropped at once). -/
def preOutServer (today : Date) (sx : Option TodoItem) : Option TodoItem :=
  match sx.map (markOldTodo today) with
  | some y => if y.state = ItemState.removed then none else some y
  | none => none

/-! ## Concrete instances used by the claim theorems -/

/-- A mutable-field value for examples. -/
def exTodoFields1 : TodoFields := { body := "a", date := 0, done := none }

/-- A second, different mutable-field value. -/
def exTodoFields2 : TodoFields := { body := "b", date := 0, done := none }

/-- A client replica holding one tombstoned `Todo` (removed locally,
not yet synced). -/
def cexA : TdListM :=
  { todos := { items := [{ fields := exTodoFields1, id := 0, syncId := 1, state := ItemState.removed }], server := false },
    tasks := { items := [], server := false }, server := false }

/-- A server replica holding the same logical `Todo` (same `sync_id`),
locally edited (`Changed`). -/
def cexB : TdListM :=
  { todos := { items := [{ fields := exTodoFields2, id := 0, syncId := 1, state := ItemState.changed }], server := true },
    tasks := { items := [], server := true }, server := true }

/-- The post-sync client replica for `cexA.sync cexB`: empty. -/
def cexA' : TdListM :=
  { todos := { items := [], server := false },
    tasks := { items := [], server := false }, server := false }

/-- The post-sync server replica for `cexA.sync cexB`: empty. -/
def cexB' : TdListM :=
  { todos := { items := [], server := true },
    tasks := { items := [], server := true }, server := true }

/-- A client-side item marked `Changed`. -/
def c2x : SItem TodoFields :=
  { fields := exTodoFields1, id := 0, syncId := 1, state := ItemState.changed }

/-- The matching server-side item, untouched since the last sync. -/
def c2y : SItem TodoFields :=
  { fields := exTodoFields2, id := 0, syncId := 1, state := ItemState.unchanged }

/-- Client collection for the edit-wins instance. -/
def c2a : SyncList TodoFields := { items := [c2x], server := false }

/-- Server collection for the edit-wins instance. -/
def c2b : SyncList TodoFields := { items := [c2y], server := true }

/-- Post-merge client collection: the client's edit everywhere. -/
def c2a' : SyncList TodoFields :=
  { items := [{ fields := exTodoFields1, id := 0, syncId := 1, state := ItemState.unchanged }], server := false }

/-- Post-merge server collection: the client's edit everywhere. -/
def c2b' : SyncList TodoFields :=
  { items := [{ fields := exTodoFields1, id := 0, syncId := 1, state := ItemState.unchanged }], server := true }

/-- Model of `new_client` + two `add_todo` + one `remove_todo 0`: a client with a
leading tombstone whose live item keeps id 1. -/
def c3list : TdListM :=
  Op.step (Op.removeTodo 0)
    (Op.step (Op.addTodo (mkTodo "U" 0 6))
      (Op.step (Op.addTodo (mkTodo "T" 0 5)) TdListM.newClient))

/-- A `Todo` completed on day 3. -/
def c4todo : TodoItem :=
  { fields := { body := "w", date := 0, done := some 3 },
    id := 0, syncId := 2, state := ItemState.unchanged }

/-- A client list holding `c4todo`. -/
def c4list : TdListM :=
  { todos := { items := [c4todo], server := false },
    tasks := { items := [], server := false }, server := false }

/-- A client replica with one locally added `Todo` (marker `New`). -/
def c6client : TdListM := TdListM.addTodo TdListM.newClient (mkTodo "A" 0 9)

/-- The (empty) server replica the transport hands back. -/
def c6server : TdListM := TdListM.newServer

/-- A deserializer always producing `c6server`. -/
def c6parse : List Nat → Except NError TdListM := fun _ => Except.ok c6server

/-- The client's random challenge. -/
def c6auth : List Nat := [0, 0, 0, 0, 0, 0, 0, 0]

/-- The server-issued session id. -/
def c6sid : List Nat := [1, 1, 1, 1, 1, 1, 1, 1]

/-- An exchange that runs cleanly until the final confirmation, which
carries a payload other than `"ok"`. -/
def c6env : NetEnv :=
  { conn := none, w1 := none, r1 := Except.ok (c6sid ++ c6auth),
    w2 := none, r2 := Except.ok (c6sid ++ [42]),
    w3 := none, r3 := Except.ok (c6sid ++ [5]) }

/-- The merged replica `client_sync` leaves behind on that exchange. -/
def c6merged : TdListM :=
  { todos := { items := [{ fields := { body := "A", date := 0, done := none }, id := 0, syncId := 9, state := ItemState.unchanged }], server := false },
    tasks := { items := [], server := false }, server := false }

/-- A client replica with one live `Todo` at id 0. -/
def c7list : TdListM := TdListM.addTodo TdListM.newClient (mkTodo "r" 0 4)

/-- Model of `c7list` after `remove_todo 0`: the tombstone stays in place. -/
def c7removed : TdListM :=
  { todos := { items := [{ fields := { body := "r", date := 0, done := none }, id := 0, syncId := 4, state := ItemState.removed }], server := false },
    tasks := { items := [], server := false }, server := false }

/-- A client replica with one live `Todo` at id 0, for the tombstone
indexing instance. -/
def c10list : TdListM := TdListM.addTodo TdListM.newClient (mkTodo "s" 0 8)

/-- Model of `c10list` after `remove_todo 0`. -/
def c10removed : TdListM :=
  { todos := { items := [{ fields := { body := "s", date := 0, done := none }, id := 0, syncId := 8, state := ItemState.removed }], server := false },
    tasks := { items := [], server := false }, server := false }

/-! ## Basic lemmas about the merge primitives -/

theorem findSync_none_iff (σ : Nat) (l : List (SItem F)) :
    findSync σ l = none ↔ σ ∉ syncIds l := by
  induction l with
  | nil => simp [findSync, syncIds]
  | cons x xs ih =>
      simp only [syncIds, List.map_cons, List.mem_cons]
      by_cases h : x.syncId = σ
      · simp [findSync, h]
      · simp only [findSync, h, if_false]
        rw [ih]
        simp only [syncIds]
        constructor
        · intro hn hc
          rcases hc with hc | hc
          · exact h hc.symm
          · exact hn hc
        · intro hn hc
          exact hn (Or.inr hc)

theorem findSync_mem {σ : Nat} {l : List (SItem F)} {x : SItem F}
    (h : findSync σ l = some x) : x ∈ l ∧ x.syncId = σ := by
  induction l with
  | nil => simp [findSync] at h
  | cons y ys ih =>
      by_cases hy : y.syncId = σ
      · simp [findSync, hy] at h
        subst h
        exact ⟨List.mem_cons_self _ _, hy⟩
      · simp [findSync, hy] at h
        rcases ih h with ⟨h1, h2⟩
        exact ⟨List.mem_cons_of_mem _ h1, h2⟩

theorem findSync_append (σ : Nat) (l : List (SItem F)) (z : SItem F) :
    findSync σ (l ++ [z]) =
      match findSync σ l with
      | some y => some y
      | none => if z.syncId = σ then some z else none := by
  induction l with
  | nil => simp [findSync]
  | cons x xs ih =>
      by_cases h : x.syncId = σ <;> simp [findSync, h, ih]

theorem findSync_map (f : SItem F → SItem F)
    (hf : ∀ it, (f it).syncId = it.syncId) (σ : Nat) (l : List (SItem F)) :
    findSync σ (l.map f) = (findSync σ l).map f := by
  induction l with
  | nil => simp [findSync]
  | cons x xs ih =>
      by_cases h : x.syncId = σ <;> simp [findSync, hf, h, ih]

theorem findSync_updateFirstBy (σ τ : Nat) (f : SItem F → SItem F)
    (hf : ∀ it, (f it).syncId = it.syncId) (l : List (SItem F)) :
    findSync σ (updateFirstBy (fun it => it.syncId == τ) f l) =
      if τ = σ then (findSync σ l).map f else findSync σ l := by
  induction l with
  | nil => simp [findSync, updateFirstBy]
  | cons x xs ih =>
      by_cases hxτ : x.syncId = τ
      · by_cases hτσ : τ = σ
        · subst hτσ
          simp [updateFirstBy, findSync, hxτ, hf]
        · have hxσ : x.syncId ≠ σ := by
            intro hc; exact hτσ (hxτ ▸ hc)
          have hστ : σ ≠ τ := fun hc => hτσ hc.symm
          simp [updateFirstBy, findSync, hxτ, hf, hxσ, hτσ, hστ]
      · by_cases hxσ : x.syncId = σ
        · have hτσ : τ ≠ σ := by
            intro hc; exact hxτ (by rw [hxσ, hc])
          have hστ : σ ≠ τ := fun hc => hτσ hc.symm
          simp [updateFirstBy, findSync, hxτ, hxσ, hτσ, hστ]
        · simp [updateFirstBy, findSync, hxτ, hxσ, ih]

theorem syncIds_updateFirstBy (p : SItem F → Bool) (f : SItem F → SItem F)
    (hf : ∀ it, (f it).syncId = it.syncId) (l : List (SItem F)) :
    syncIds (updateFirstBy p f l) = syncIds l := by
  induction l with
  | nil => rfl
  | cons x xs ih =>
      by_cases h : p x <;> simp [updateFirstBy, h, syncIds, hf] <;>
        simpa [syncIds] using ih

theorem syncIds_mapIndicesToIds (n : Nat) (l : List (SItem F)) :
    syncIds (mapIndicesToIds n l) = syncIds l := by
  induction l generalizing n with
  | nil => rfl
  | cons x xs ih => simp [mapIndicesToIds, syncIds] at ih ⊢; exact ih _

theorem findSync_mapIndicesToIds_fields (σ : Nat) (n : Nat)
    (l : List (SItem F)) :
    (findSync σ (mapIndicesToIds n l)).map SItem.fields =
      (findSync σ l).map SItem.fields := by
  induction l generalizing n with
  | nil => rfl
  | cons x xs ih =>
      by_cases h : x.syncId = σ <;> simp [mapIndicesToIds, findSync, h, ih]

theorem findSync_liveItems (σ : Nat) (items : List (SItem F))
    (h : (syncIds items).Nodup) :
    findSync σ (liveItems items) =
      match findSync σ items with
      | some z => if z.state = ItemState.removed then none else some z
      | none => none := by
  induction items with
  | nil => simp [findSync, liveItems]
  | cons x xs ih =>
      have hnd : x.syncId ∉ syncIds xs ∧ (syncIds xs).Nodup := by
        have h2 := h
        simp only [syncIds, List.map_cons] at h2
        exact List.nodup_cons.mp h2
      by_cases hx : x.syncId = σ
      · by_cases hrem : x.state = ItemState.removed
        · have : findSync σ (liveItems xs) = none := by
            rw [findSync_none_iff]
            intro hmem
            have : σ ∈ syncIds xs := by
              rcases List.mem_map.mp hmem with ⟨y, hy, hyσ⟩
              rcases List.mem_filter.mp hy with ⟨hy2, _⟩
              exact List.mem_map.mpr ⟨y, hy2, hyσ⟩
            exact hnd.1 (hx ▸ this)
          simp [liveItems, List.filter, hrem, findSync, hx] at this ⊢
          simpa [liveItems] using this
        · simp [liveItems, List.filter, hrem, findSync, hx]
      · by_cases hrem : x.state = ItemState.removed
        · have := ih hnd.2
          simp [liveItems, List.filter, hrem, findSync, hx] at this ⊢
          simpa [liveItems] using this
        · have := ih hnd.2
          simp [liveItems, List.filter, hrem, findSync, hx] at this ⊢
          simpa [liveItems] using this

theorem findSync_syncSelfItems_fields (σ : Nat) (items : List (SItem F))
    (h : (syncIds items).Nodup) :
    (findSync σ (syncSelfItems items)).map SItem.fields =
      match findSync σ items with
      | some z =>
          if z.state = ItemState.removed then none else some z.fields
      | none => none := by
  unfold syncSelfItems
  rw [findSync_map (fun it => { it with state := ItemState.unchanged })
      (fun it => rfl), Option.map_map]
  have : (SItem.fields ∘ fun it : SItem F =>
      { it with state := ItemState.unchanged }) = SItem.fields := rfl
  rw [this, findSync_mapIndicesToIds_fields, findSync_liveItems σ items h]
  cases hf : findSync σ items with
  | none => rfl
  | some z => by_cases hz : z.state = ItemState.removed <;> simp [hz]

/-! ## The first merge loop, one `sync_id` at a time -/

theorem syncStep_fst_syncId [DecidableEq F] (x : SItem F)
    (s : List (SItem F)) : (syncStep x s).1.syncId = x.syncId := by
  unfold syncStep
  cases x.state <;> simp
  · cases findSync x.syncId s with
    | none => rfl
    | some y => by_cases h : y.fields = x.fields <;> simp [h]
  · cases findSync x.syncId s with
    | none => rfl
    | some y => rfl

theorem findSync_syncStep_ne [DecidableEq F] (σ : Nat) (x : SItem F)
    (s : List (SItem F)) (hx : x.syncId ≠ σ) :
    findSync σ (syncStep x s).2 = findSync σ s := by
  unfold syncStep
  cases x.state <;> simp
  · rw [findSync_append]
    cases findSync σ s with
    | none => simp [hx]
    | some y => rfl
  · rw [findSync_updateFirstBy σ x.syncId
        (fun it => { it with state := ItemState.removed }) (fun it => rfl)]
    simp [hx]
  · cases findSync x.syncId s with
    | none => rfl
    | some y => by_cases h : y.fields = x.fields <;> simp [h]
  · cases findSync x.syncId s with
    | none =>
        simp
        rw [findSync_append]
        cases findSync σ s with
        | none => simp [hx]
        | some y => rfl
    | some y =>
        simp
        rw [findSync_updateFirstBy σ x.syncId
            (fun it => { it with fields := x.fields }) (fun it => rfl)]
        simp [hx]

theorem syncIds_syncStep [DecidableEq F] (x : SItem F) (s : List (SItem F))
    (hfr : x.state = ItemState.new → findSync x.syncId s = none) :
    syncIds (syncStep x s).2 = syncIds s ∨
      (syncIds (syncStep x s).2 = syncIds s ++ [x.syncId] ∧
        findSync x.syncId s = none) := by
  unfold syncStep
  cases hst : x.state <;> simp
  · exact Or.inr ⟨by simp [syncIds], hfr hst⟩
  · exact Or.inl (syncIds_updateFirstBy (fun it => it.syncId == x.syncId)
      (fun it => { it with state := ItemState.removed }) (fun it => rfl) s)
  · cases findSync x.syncId s with
    | none => simp
    | some y => by_cases h : y.fields = x.fields <;> simp [h]
  · cases hfs : findSync x.syncId s with
    | none => exact Or.inr ⟨by simp [syncIds], rfl⟩
    | some y =>
        simp
        exact syncIds_updateFirstBy (fun it => it.syncId == x.syncId)
          (fun it => { it with fields := x.fields }) (fun it => rfl) s

theorem nodup_syncIds_syncStep [DecidableEq F] (x : SItem F)
    (s : List (SItem F)) (hs : (syncIds s).Nodup)
    (hfr : x.state = ItemState.new → findSync x.syncId s = none) :
    (syncIds (syncStep x s).2).Nodup := by
  rcases syncIds_syncStep x s hfr with h | ⟨h, hnone⟩
  · rw [h]; exact hs
  · rw [h]
    have hnotin : x.syncId ∉ syncIds s := (findSync_none_iff _ _).mp hnone
    rw [List.nodup_append]
    exact ⟨hs, List.nodup_singleton _, by
      intro a ha hb
      simp at hb
      exact hnotin (hb ▸ ha)⟩

theorem findSync_none_syncStep [DecidableEq F] (τ : Nat) (x : SItem F)
    (s : List (SItem F)) (hτ : τ ≠ x.syncId)
    (hnone : findSync τ s = none)
    (hfr : x.state = ItemState.new → findSync x.syncId s = none) :
    findSync τ (syncStep x s).2 = none := by
  rw [findSync_none_iff] at hnone ⊢
  rcases syncIds_syncStep x s hfr with h | ⟨h, _⟩
  · rw [h]; exact hnone
  · rw [h]
    intro hmem
    rcases List.mem_append.mp hmem with hmem | hmem
    · exact hnone hmem
    · simp at hmem
      exact hτ hmem

theorem findSync_syncLoop1_snd_ne [DecidableEq F] (σ : Nat)
    (c s : List (SItem F)) (hc : ∀ x ∈ c, x.syncId ≠ σ) :
    findSync σ (syncLoop1 c s).2 = findSync σ s := by
  induction c generalizing s with
  | nil => rfl
  | cons x xs ih =>
      show findSync σ (syncLoop1 xs (syncStep x s).2).2 = findSync σ s
      rw [ih (syncStep x s).2 (fun y hy => hc y (List.mem_cons_of_mem _ hy)),
        findSync_syncStep_ne σ x s (hc x (List.mem_cons_self _ _))]

theorem syncIds_syncLoop1_fst [DecidableEq F] (c s : List (SItem F)) :
    syncIds (syncLoop1 c s).1 = syncIds c := by
  induction c generalizing s with
  | nil => rfl
  | cons x xs ih =>
      show syncIds ((syncStep x s).1 :: (syncLoop1 xs (syncStep x s).2).1)
        = syncIds (x :: xs)
      simp only [syncIds, List.map_cons]
      rw [syncStep_fst_syncId]
      have := ih (syncStep x s).2
      simp only [syncIds] at this
      rw [this]

theorem nodup_syncIds_syncLoop1_snd [DecidableEq F] (c s : List (SItem F))
    (hc : (syncIds c).Nodup) (hs : (syncIds s).Nodup)
    (hfresh : ∀ x ∈ c, x.state = ItemState.new → findSync x.syncId s = none) :
    (syncIds (syncLoop1 c s).2).Nodup := by
  induction c generalizing s with
  | nil => exact hs
  | cons x xs ih =>
      have hnd : x.syncId ∉ syncIds xs ∧ (syncIds xs).Nodup := by
        have h2 := hc
        simp only [syncIds, List.map_cons] at h2
        exact List.nodup_cons.mp h2
      show ((syncIds (syncLoop1 xs (syncStep x s).2).2)).Nodup
      apply ih (syncStep x s).2 hnd.2
      · exact nodup_syncIds_syncStep x s hs
          (fun h => hfresh x (List.mem_cons_self _ _) h)
      · intro y hy hnew
        have hyx : y.syncId ≠ x.syncId := by
          intro hcq
          exact hnd.1 (hcq ▸ List.mem_map.mpr ⟨y, hy, rfl⟩)
        exact findSync_none_syncStep y.syncId x s hyx
          (hfresh y (List.mem_cons_of_mem _ hy) hnew)
          (fun h => hfresh x (List.mem_cons_self _ _) h)

/-- The first merge loop, characterized per `sync_id`: hypotheses are
distinct `sync_id`s on each side and freshness of `New` client items
(no counterpart on the server), both properties of reachable replica
pairs. -/
theorem syncLoop1_find [DecidableEq F] (σ : Nat) (c s : List (SItem F))
    (hc : (syncIds c).Nodup) (hs : (syncIds s).Nodup)
    (hfresh : ∀ x ∈ c, x.state = ItemState.new → findSync x.syncId s = none) :
    findSync σ (syncLoop1 c s).1 = loop1OutC (findSync σ c) (findSync σ s) ∧
    findSync σ (syncLoop1 c s).2 = loop1OutS (findSync σ c) (findSync σ s) := by
  induction c generalizing s with
  | nil => exact ⟨rfl, rfl⟩
  | cons x xs ih =>
      have hnd : x.syncId ∉ syncIds xs ∧ (syncIds xs).Nodup := by
        have h2 := hc
        simp only [syncIds, List.map_cons] at h2
        exact List.nodup_cons.mp h2
      by_cases hxσ : x.syncId = σ
      · have htail : ∀ y ∈ xs, y.syncId ≠ σ := by
          intro y hy hcq
          exact hnd.1 (by
            rw [hxσ, ← hcq]
            exact List.mem_map.mpr ⟨y, hy, rfl⟩)
        have hfind : findSync σ (x :: xs) = some x := by simp [findSync, hxσ]
        have hfst : findSync σ (syncLoop1 (x :: xs) s).1
            = some (syncStep x s).1 := by
          show findSync σ
            ((syncStep x s).1 :: (syncLoop1 xs (syncStep x s).2).1) = _
          simp [findSync, syncStep_fst_syncId, hxσ]
        have hsnd : findSync σ (syncLoop1 (x :: xs) s).2
            = findSync σ (syncStep x s).2 := by
          show findSync σ (syncLoop1 xs (syncStep x s).2).2 = _
          exact findSync_syncLoop1_snd_ne σ xs _ htail
        rw [hfind, hfst, hsnd]
        cases hst : x.state with
        | new =>
            have h0 := hfresh x (List.mem_cons_self _ _) hst
            rw [hxσ] at h0
            refine ⟨by simp [syncStep, hst, loop1OutC], ?_⟩
            simp only [syncStep, hst, loop1OutS]
            rw [findSync_append, h0]
            simp [hxσ]
        | removed =>
            refine ⟨by simp [syncStep, hst, loop1OutC], ?_⟩
            simp only [syncStep, hst, loop1OutS]
            rw [findSync_updateFirstBy σ x.syncId
              (fun it => { it with state := ItemState.removed })
              (fun it => rfl) s]
            simp [hxσ]
        | unchanged =>
            cases hfs : findSync σ s with
            | none =>
                have hfs' : findSync x.syncId s = none := by rw [hxσ, hfs]
                simp [syncStep, hst, hfs', hfs, loop1OutC, loop1OutS]
            | some y =>
                have hfs' : findSync x.syncId s = some y := by rw [hxσ, hfs]
                by_cases heq : y.fields = x.fields <;>
                  simp only [syncStep, hst, hfs', loop1OutC, loop1OutS,
                    heq, if_true, if_false] <;>
                  simp [heq, hfs]
        | changed =>
            cases hfs : findSync σ s with
            | none =>
                have : findSync x.syncId s = none := by rw [hxσ, hfs]
                refine ⟨by simp [syncStep, hst, this, loop1OutC], ?_⟩
                simp only [syncStep, hst, this, loop1OutS]
                rw [findSync_append, hfs]
                simp [hxσ]
            | some y =>
                have hfs' : findSync x.syncId s = some y := by rw [hxσ, hfs]
                refine ⟨by simp [syncStep, hst, hfs', loop1OutC], ?_⟩
                simp only [syncStep, hst, hfs', loop1OutS]
                rw [findSync_updateFirstBy σ x.syncId
                  (fun it => { it with fields := x.fields })
                  (fun it => rfl) s]
                simp [hxσ, hfs]
      · have hfind : findSync σ (x :: xs) = findSync σ xs := by
          simp [findSync, hxσ]
        have hih := ih (syncStep x s).2 hnd.2
          (nodup_syncIds_syncStep x s hs
            (fun h => hfresh x (List.mem_cons_self _ _) h))
          (by
            intro y hy hnew
            have hyx : y.syncId ≠ x.syncId := by
              intro hcq
              exact hnd.1 (hcq ▸ List.mem_map.mpr ⟨y, hy, rfl⟩)
            exact findSync_none_syncStep y.syncId x s hyx
              (hfresh y (List.mem_cons_of_mem _ hy) hnew)
              (fun h => hfresh x (List.mem_cons_self _ _) h))
        have hps : findSync σ (syncStep x s).2 = findSync σ s :=
          findSync_syncStep_ne σ x s hxσ
        rw [hps] at hih
        constructor
        · show findSync σ
            ((syncStep x s).1 :: (syncLoop1 xs (syncStep x s).2).1)
            = loop1OutC (findSync σ (x :: xs)) (findSync σ s)
          rw [hfind, ← hih.1]
          simp [findSync, syncStep_fst_syncId, hxσ]
        · show findSync σ (syncLoop1 xs (syncStep x s).2).2
            = loop1OutS (findSync σ (x :: xs)) (findSync σ s)
          rw [hfind, ← hih.2]

/-! ## The second merge loop (server sweep-back), one `sync_id` at a time -/

theorem syncLoop2_nil [DecidableEq F] (acc : List (SItem F)) :
    syncLoop2 [] acc = acc := rfl

theorem syncLoop2_cons [DecidableEq F] (y : SItem F)
    (rest acc : List (SItem F)) :
    syncLoop2 (y :: rest) acc =
      syncLoop2 rest
        (if y.state ≠ ItemState.removed ∧ findSync y.syncId acc = none
         then acc ++ [{ y with state := ItemState.new }] else acc) := rfl

theorem findSync_syncLoop2_ne [DecidableEq F] (σ : Nat)
    (sItems acc : List (SItem F)) (hnot : ∀ y ∈ sItems, y.syncId ≠ σ) :
    findSync σ (syncLoop2 sItems acc) = findSync σ acc := by
  induction sItems generalizing acc with
  | nil => rfl
  | cons y rest ih =>
      rw [syncLoop2_cons]
      by_cases hcond : (y.state ≠ ItemState.removed ∧
          findSync y.syncId acc = none)
      · rw [if_pos hcond,
          ih _ (fun z hz => hnot z (List.mem_cons_of_mem _ hz)),
          findSync_append]
        cases hacc : findSync σ acc with
        | none => simp [hnot y (List.mem_cons_self _ _)]
        | some z => rfl
      · rw [if_neg hcond, ih _ (fun z hz => hnot z (List.mem_cons_of_mem _ hz))]

theorem nodup_syncIds_syncLoop2 [DecidableEq F]
    (sItems acc : List (SItem F)) (hacc : (syncIds acc).Nodup) :
    (syncIds (syncLoop2 sItems acc)).Nodup := by
  induction sItems generalizing acc with
  | nil => exact hacc
  | cons y rest ih =>
      rw [syncLoop2_cons]
      by_cases hcond : (y.state ≠ ItemState.removed ∧
          findSync y.syncId acc = none)
      · rw [if_pos hcond]
        apply ih
        have hnotin : y.syncId ∉ syncIds acc :=
          (findSync_none_iff _ _).mp hcond.2
        simp only [syncIds, List.map_append, List.map_cons, List.map_nil]
        rw [List.nodup_append]
        refine ⟨hacc, List.nodup_singleton _, ?_⟩
        intro a ha hb
        simp at hb
        exact hnotin (hb ▸ ha)
      · rw [if_neg hcond]
        exact ih acc hacc

theorem syncLoop2_find [DecidableEq F] (σ : Nat)
    (sItems acc : List (SItem F)) (hs : (syncIds sItems).Nodup) :
    findSync σ (syncLoop2 sItems acc) =
      match findSync σ acc with
      | some z => some z
      | none =>
        match findSync σ sItems with
        | some y =>
            if y.state = ItemState.removed then none
            else some { y with state := ItemState.new }
        | none => none := by
  induction sItems generalizing acc with
  | nil =>
      rw [syncLoop2_nil]
      cases hacc : findSync σ acc with
      | none => rfl
      | some z => rfl
  | cons y rest ih =>
      have hnd : y.syncId ∉ syncIds rest ∧ (syncIds rest).Nodup := by
        have h2 := hs
        simp only [syncIds, List.map_cons] at h2
        exact List.nodup_cons.mp h2
      have htail : ∀ z ∈ rest, z.syncId ≠ y.syncId := by
        intro z hz hcq
        exact hnd.1 (hcq ▸ List.mem_map.mpr ⟨z, hz, rfl⟩)
      rw [syncLoop2_cons]
      by_cases hyσ : y.syncId = σ
      · have hrest : ∀ z ∈ rest, z.syncId ≠ σ := fun z hz => hyσ ▸ htail z hz
        have hfind : findSync σ (y :: rest) = some y := by
          simp [findSync, hyσ]
        rw [hfind]
        cases hacc : findSync σ acc with
        | some z =>
            have hacc' : findSync y.syncId acc = some z := by rw [hyσ, hacc]
            rw [if_neg (by simp [hacc'])]
            rw [findSync_syncLoop2_ne σ rest acc hrest, hacc]
        | none =>
            have hacc' : findSync y.syncId acc = none := by rw [hyσ, hacc]
            by_cases hrem : y.state = ItemState.removed
            · rw [if_neg (by simp [hrem])]
              rw [findSync_syncLoop2_ne σ rest acc hrest, hacc]
              simp [hrem]
            · rw [if_pos ⟨hrem, hacc'⟩]
              rw [findSync_syncLoop2_ne σ rest _ hrest, findSync_append, hacc]
              simp [hyσ, hrem]
      · have hfind : findSync σ (y :: rest) = findSync σ rest := by
          simp [findSync, hyσ]
        rw [hfind]
        by_cases hcond : (y.state ≠ ItemState.removed ∧
            findSync y.syncId acc = none)
        · rw [if_pos hcond, ih _ hnd.2]
          rw [findSync_append]
          cases hacc : findSync σ acc with
          | none => simp [hyσ]
          | some z => rfl
        · rw [if_neg hcond, ih _ hnd.2]

/-! ## The full merge, one `sync_id` at a time -/

/-- Model of `SyncList::sync`'s effect on one `sync_id`, client-designated side
and server-designated side, after both normalize sweeps. -/
theorem merge_find [DecidableEq F] (σ : Nat) (c s : List (SItem F))
    (hc : (syncIds c).Nodup) (hs : (syncIds s).Nodup)
    (hfresh : ∀ x ∈ c, x.state = ItemState.new → findSync x.syncId s = none) :
    (findSync σ (syncSelfItems
        (syncLoop2 (syncLoop1 c s).2 (syncLoop1 c s).1))).map SItem.fields
      = mergeOutC (findSync σ c) (findSync σ s) ∧
    (findSync σ (syncSelfItems (syncLoop1 c s).2)).map SItem.fields
      = mergeOutS (findSync σ c) (findSync σ s) := by
  have h1 := fun τ => syncLoop1_find τ c s hc hs hfresh
  have hndc1 : (syncIds (syncLoop1 c s).1).Nodup := by
    rw [syncIds_syncLoop1_fst]; exact hc
  have hnds1 : (syncIds (syncLoop1 c s).2).Nodup :=
    nodup_syncIds_syncLoop1_snd c s hc hs hfresh
  have hndc2 : (syncIds (syncLoop2 (syncLoop1 c s).2 (syncLoop1 c s).1)).Nodup :=
    nodup_syncIds_syncLoop2 _ _ hndc1
  constructor
  · rw [findSync_syncSelfItems_fields σ _ hndc2, syncLoop2_find σ _ _ hnds1,
      (h1 σ).1, (h1 σ).2]
    cases hcx : findSync σ c with
    | none =>
        cases hsx : findSync σ s with
        | none => simp [loop1OutC, loop1OutS, mergeOutC]
        | some y =>
            by_cases hrem : y.state = ItemState.removed <;>
              simp [loop1OutC, loop1OutS, mergeOutC, hrem]
    | some x =>
        cases hst : x.state with
        | new =>
            cases hsx : findSync σ s with
            | none => simp [loop1OutC, loop1OutS, mergeOutC, hst]
            | some y =>
                rcases findSync_mem hcx with ⟨hmem, hid⟩
                have h0 := hfresh x hmem hst
                rw [hid] at h0
                rw [h0] at hsx
                cases hsx
        | removed => simp [loop1OutC, loop1OutS, mergeOutC, hst]
        | unchanged =>
            cases hsx : findSync σ s with
            | none => simp [loop1OutC, loop1OutS, mergeOutC, hst]
            | some y =>
                by_cases heq : y.fields = x.fields <;>
                  simp [loop1OutC, loop1OutS, mergeOutC, hst, heq]
        | changed =>
            cases hsx : findSync σ s with
            | none => simp [loop1OutC, loop1OutS, mergeOutC, hst]
            | some y => simp [loop1OutC, loop1OutS, mergeOutC, hst]
  · rw [findSync_syncSelfItems_fields σ _ hnds1, (h1 σ).2]
    cases hcx : findSync σ c with
    | none =>
        cases hsx : findSync σ s with
        | none => simp [loop1OutS, mergeOutS]
        | some y =>
            by_cases hrem : y.state = ItemState.removed <;>
              simp [loop1OutS, mergeOutS, hrem]
    | some x =>
        cases hst : x.state with
        | new => simp [loop1OutS, mergeOutS, hst]
        | removed =>
            cases hsx : findSync σ s with
            | none => simp [loop1OutS, mergeOutS, hst]
            | some y => simp [loop1OutS, mergeOutS, hst]
        | unchanged =>
            cases hsx : findSync σ s with
            | none => simp [loop1OutS, mergeOutS, hst]
            | some y =>
                by_cases hrem : y.state = ItemState.removed <;>
                  simp [loop1OutS, mergeOutS, hst, hrem]
        | changed =>
            cases hsx : findSync σ s with
            | none => simp [loop1OutS, mergeOutS, hst]
            | some y =>
                by_cases hrem : y.state = ItemState.removed <;>
                  simp [loop1OutS, mergeOutS, hst, hrem]

/-! ## From item vectors to `SyncList::sync` and `TdList::sync` -/

theorem SyncList_sync_client_server [DecidableEq F] (a b : SyncList F)
    (ha : a.server = false) (hb : b.server = true) :
    SyncList.sync a b = some
      ({ a with items := (syncSelfItems (syncLoop2 (syncLoop1 a.items b.items).2 (syncLoop1 a.items b.items).1)) },
       { b with items := (syncSelfItems (syncLoop1 a.items b.items).2) }) := by
  unfold SyncList.sync mergeRun
  rw [ha, hb]
  simp

/-- Model of `SyncList::sync` between a client-role `self` and a server-role
`other`, characterized per `sync_id`. -/
theorem sync_find [DecidableEq F] (a b a' b' : SyncList F)
    (ha : a.server = false) (hb : b.server = true)
    (h : SyncList.sync a b = some (a', b'))
    (hna : (syncIds a.items).Nodup) (hnb : (syncIds b.items).Nodup)
    (hfresh : ∀ x ∈ a.items, x.state = ItemState.new →
      findSync x.syncId b.items = none) (σ : Nat) :
    (findSync σ a'.items).map SItem.fields
      = mergeOutC (findSync σ a.items) (findSync σ b.items) ∧
    (findSync σ b'.items).map SItem.fields
      = mergeOutS (findSync σ a.items) (findSync σ b.items) := by
  rw [SyncList_sync_client_server a b ha hb] at h
  have h2 := Option.some.inj h
  injection h2 with h3 h4
  rw [← h3, ← h4]
  exact merge_find σ a.items b.items hna hnb hfresh

theorem markOldTodo_syncId (today : Date) (t : TodoItem) :
    (markOldTodo today t).syncId = t.syncId := by
  unfold markOldTodo
  split <;> rfl

theorem markOldTodo_state_new (today : Date) (t : TodoItem)
    (h : (markOldTodo today t).state = ItemState.new) :
    markOldTodo today t = t ∧ t.state = ItemState.new := by
  unfold markOldTodo at h ⊢
  by_cases hc : todoCanRemove t today = true
  · simp [hc] at h
  · simp [hc] at h ⊢
    exact h

theorem syncIds_map_pres (f : SItem F → SItem F)
    (hf : ∀ it, (f it).syncId = it.syncId) (l : List (SItem F)) :
    syncIds (l.map f) = syncIds l := by
  induction l with
  | nil => rfl
  | cons x xs ih =>
      simp only [syncIds, List.map_cons, hf] at ih ⊢
      rw [ih]

theorem mem_syncIds_liveItems {σ : Nat} {l : List (SItem F)}
    (h : σ ∈ syncIds (liveItems l)) : σ ∈ syncIds l := by
  rcases List.mem_map.mp h with ⟨y, hy, hyσ⟩
  rcases List.mem_filter.mp hy with ⟨hy2, _⟩
  exact List.mem_map.mpr ⟨y, hy2, hyσ⟩

theorem removeOldTodos_client (A : TdListM) (today : Date)
    (hAs : A.server = false) :
    (A.removeOldTodos today).todos.items
        = A.todos.items.map (markOldTodo today) ∧
    (A.removeOldTodos today).todos.server = A.todos.server ∧
    (A.removeOldTodos today).tasks = A.tasks ∧
    (A.removeOldTodos today).server = A.server := by
  unfold TdListM.removeOldTodos
  rw [hAs]
  exact ⟨rfl, rfl, rfl, rfl⟩

theorem removeOldTodos_server (B : TdListM) (today : Date)
    (hBs : B.server = true) :
    (B.removeOldTodos today).todos.items
        = liveItems (B.todos.items.map (markOldTodo today)) ∧
    (B.removeOldTodos today).todos.server = B.todos.server ∧
    (B.removeOldTodos today).tasks = B.tasks ∧
    (B.removeOldTodos today).server = B.server := by
  unfold TdListM.removeOldTodos
  rw [hBs]
  exact ⟨rfl, rfl, rfl, rfl⟩

theorem findSync_prepass_client (σ : Nat) (today : Date)
    (items : List TodoItem) :
    findSync σ (items.map (markOldTodo today))
      = preOutClient today (findSync σ items) :=
  findSync_map (markOldTodo today) (markOldTodo_syncId today) σ items

theorem findSync_prepass_server (σ : Nat) (today : Date)
    (items : List TodoItem) (hn : (syncIds items).Nodup) :
    findSync σ (liveItems (items.map (markOldTodo today)))
      = preOutServer today (findSync σ items) := by
  have hn2 : (syncIds (items.map (markOldTodo today))).Nodup := by
    rw [syncIds_map_pres (markOldTodo today) (markOldTodo_syncId today)]
    exact hn
  rw [findSync_liveItems σ _ hn2, findSync_prepass_client σ today items]
  unfold preOutServer preOutClient
  cases findSync σ items with
  | none => rfl
  | some z => rfl

theorem nodup_syncIds_liveItems (l : List (SItem F))
    (h : (syncIds l).Nodup) : (syncIds (liveItems l)).Nodup :=
  h.sublist (List.Sublist.map SItem.syncId (List.filter_sublist l))

theorem fresh_prepass (today : Date) (ca sb : List TodoItem)
    (hf : ∀ x ∈ ca, x.state = ItemState.new → findSync x.syncId sb = none) :
    ∀ x ∈ ca.map (markOldTodo today), x.state = ItemState.new →
      findSync x.syncId (liveItems (sb.map (markOldTodo today))) = none := by
  intro x hx hnew
  rcases List.mem_map.mp hx with ⟨x0, hx0, hmk⟩
  have hnew0 : (markOldTodo today x0).state = ItemState.new := by
    rw [hmk]; exact hnew
  rcases markOldTodo_state_new today x0 hnew0 with ⟨heq, hst0⟩
  have hx0x : x = x0 := by rw [← hmk, heq]
  subst hx0x
  have h0 := hf x hx0 hst0
  rw [findSync_none_iff] at h0 ⊢
  intro hmem
  apply h0
  have := mem_syncIds_liveItems hmem
  rw [syncIds_map_pres (markOldTodo today) (markOldTodo_syncId today)] at this
  exact this

theorem TdListM_sync_components (today : Date) (A B A' B' : TdListM)
    (hat : (A.removeOldTodos today).todos.server = false)
    (hbt : (B.removeOldTodos today).todos.server = true)
    (has : (A.removeOldTodos today).tasks.server = false)
    (hbs : (B.removeOldTodos today).tasks.server = true)
    (h : TdListM.sync today A B = some (A', B')) :
    A'.todos.items = syncSelfItems (syncLoop2 (syncLoop1 (A.removeOldTodos today).todos.items (B.removeOldTodos today).todos.items).2 (syncLoop1 (A.removeOldTodos today).todos.items (B.removeOldTodos today).todos.items).1) ∧
    B'.todos.items = syncSelfItems (syncLoop1 (A.removeOldTodos today).todos.items (B.removeOldTodos today).todos.items).2 ∧
    A'.tasks.items = syncSelfItems (syncLoop2 (syncLoop1 (A.removeOldTodos today).tasks.items (B.removeOldTodos today).tasks.items).2 (syncLoop1 (A.removeOldTodos today).tasks.items (B.removeOldTodos today).tasks.items).1) ∧
    B'.tasks.items = syncSelfItems (syncLoop1 (A.removeOldTodos today).tasks.items (B.removeOldTodos today).tasks.items).2 := by
  unfold TdListM.sync at h
  dsimp only at h
  rw [SyncList_sync_client_server _ _ hat hbt,
    SyncList_sync_client_server _ _ has hbs] at h
  have h2 := Option.some.inj h
  injection h2 with h3 h4
  refine ⟨?_, ?_, ?_, ?_⟩
  · rw [← h3]
  · rw [← h4]
  · rw [← h3]
  · rw [← h4]

/-! ## Claim C1 -/

/-- C1, corrected: the claim's exception clause is wrong — an item
marked `Removed` on one side is dropped from both sides even when the
other side carries a local edit (`Changed`), as this input shows: the
server's edited copy of sync_id 1 is present and not `Removed` before
the sync, the client's copy is a tombstone, and after the sync the item
is gone from both replicas. -/
theorem C1_counterexample :
    cexA.server = false ∧ cexB.server = true ∧
    (findSync 1 cexA.todos.items).map SItem.state = some ItemState.removed ∧
    (findSync 1 cexB.todos.items).map SItem.state = some ItemState.changed ∧
    TdListM.sync 0 cexA cexB = some (cexA', cexB') ∧
    findSync 1 cexA'.todos.items = none ∧
    findSync 1 cexB'.todos.items = none := by
  refine ⟨rfl, rfl, rfl, rfl, ?_, rfl, rfl⟩
  rfl

/-- C1 (amended): for a client replica `A` and a server replica `B`
(role flags consistent, `sync_id`s distinct per collection, `New` items
absent from the peer), `A.sync(B)` leaves, for every `sync_id`, both
replicas holding exactly the mutable fields given by `mergeOutC` /
`mergeOutS` applied to the two pre-sync copies (for `Todo`s, after the
stale-`Todo` pre-pass `preOutClient` / `preOutServer`): an item present
and not `Removed` on either side before the sync survives on both sides
with identical fields — the `Changed` side's fields when exactly one
side changed it — except that a copy marked `Removed` on one side (or a
`Todo` completed strictly before today) makes the item vanish from both
sides regardless of edits on the other side, and an `Unchanged` copy
with no counterpart on the server is dropped from both sides. -/
theorem C1_sync_per_sync_id (today : Date) (A B A' B' : TdListM) (σ : Nat)
    (hAs : A.server = false) (hAt : A.todos.server = false)
    (hAk : A.tasks.server = false)
    (hBs : B.server = true) (hBt : B.todos.server = true)
    (hBk : B.tasks.server = true)
    (hn1 : (syncIds A.todos.items).Nodup)
    (hn2 : (syncIds B.todos.items).Nodup)
    (hn3 : (syncIds A.tasks.items).Nodup)
    (hn4 : (syncIds B.tasks.items).Nodup)
    (hf1 : ∀ x ∈ A.todos.items, x.state = ItemState.new →
      findSync x.syncId B.todos.items = none)
    (hf2 : ∀ x ∈ A.tasks.items, x.state = ItemState.new →
      findSync x.syncId B.tasks.items = none)
    (h : TdListM.sync today A B = some (A', B')) :
    ((findSync σ A'.todos.items).map SItem.fields
        = mergeOutC (preOutClient today (findSync σ A.todos.items))
            (preOutServer today (findSync σ B.todos.items)) ∧
      (findSync σ B'.todos.items).map SItem.fields
        = mergeOutS (preOutClient today (findSync σ A.todos.items))
            (preOutServer today (findSync σ B.todos.items))) ∧
    ((findSync σ A'.tasks.items).map SItem.fields
        = mergeOutC (findSync σ A.tasks.items) (findSync σ B.tasks.items) ∧
      (findSync σ B'.tasks.items).map SItem.fields
        = mergeOutS (findSync σ A.tasks.items) (findSync σ B.tasks.items)) := by
  have hcA := removeOldTodos_client A today hAs
  have hcB := removeOldTodos_server B today hBs
  have hat : (A.removeOldTodos today).todos.server = false := by
    rw [hcA.2.1]; exact hAt
  have hbt : (B.removeOldTodos today).todos.server = true := by
    rw [hcB.2.1]; exact hBt
  have hak : (A.removeOldTodos today).tasks.server = false := by
    rw [hcA.2.2.1]; exact hAk
  have hbk : (B.removeOldTodos today).tasks.server = true := by
    rw [hcB.2.2.1]; exact hBk
  obtain ⟨e1, e2, e3, e4⟩ :=
    TdListM_sync_components today A B A' B' hat hbt hak hbk h
  rw [hcA.1, hcB.1] at e1 e2
  rw [hcA.2.2.1, hcB.2.2.1] at e3 e4
  have hmt := merge_find σ (A.todos.items.map (markOldTodo today))
      (liveItems (B.todos.items.map (markOldTodo today)))
      (by
        rw [syncIds_map_pres (markOldTodo today) (markOldTodo_syncId today)]
        exact hn1)
      (nodup_syncIds_liveItems _ (by
        rw [syncIds_map_pres (markOldTodo today) (markOldTodo_syncId today)]
        exact hn2))
      (fresh_prepass today A.todos.items B.todos.items hf1)
  rw [findSync_prepass_client σ today A.todos.items,
    findSync_prepass_server σ today B.todos.items hn2] at hmt
  have hmk := merge_find σ A.tasks.items B.tasks.items hn3 hn4 hf2
  exact ⟨⟨by rw [e1]; exact hmt.1, by rw [e2]; exact hmt.2⟩,
    ⟨by rw [e3]; exact hmk.1, by rw [e4]; exact hmk.2⟩⟩

/-- Witness for C1 at a concrete pair of replicas. -/
theorem C1_sync_per_sync_id_witness :
    (findSync 1 cexA'.todos.items).map SItem.fields
      = mergeOutC (preOutClient 0 (findSync 1 cexA.todos.items))
          (preOutServer 0 (findSync 1 cexB.todos.items)) :=
  (C1_sync_per_sync_id 0 cexA cexB cexA' cexB' 1 rfl rfl rfl rfl rfl rfl
    (by decide) (by decide) (by decide) (by decide)
    (by
      intro x hx hnew
      simp [cexA] at hx
      rw [hx] at hnew
      cases hnew)
    (by intro x hx; simp [cexA] at hx)
    (by rfl)).1.1

/-! ## Claim C2 -/

/-- C2, confirmed: in one merge, when both sides hold a copy of the same
`sync_id` and exactly one copy is marked `Changed` (the other
`Unchanged`), both sides afterwards hold the `Changed` side's mutable
fields — the client's edit when the client changed it, the server's
edit when the server changed it. -/
theorem C2_changed_side_wins {F : Type} [DecidableEq F]
    (a b a' b' : SyncList F)
    (ha : a.server = false) (hb : b.server = true)
    (hna : (syncIds a.items).Nodup) (hnb : (syncIds b.items).Nodup)
    (hfresh : ∀ x ∈ a.items, x.state = ItemState.new →
      findSync x.syncId b.items = none)
    (h : SyncList.sync a b = some (a', b'))
    (σ : Nat) (x y : SItem F)
    (hx : findSync σ a.items = some x) (hy : findSync σ b.items = some y) :
    ((x.state = ItemState.changed ∧ y.state = ItemState.unchanged) →
      (findSync σ a'.items).map SItem.fields = some x.fields ∧
      (findSync σ b'.items).map SItem.fields = some x.fields) ∧
    ((x.state = ItemState.unchanged ∧ y.state = ItemState.changed) →
      (findSync σ a'.items).map SItem.fields = some y.fields ∧
      (findSync σ b'.items).map SItem.fields = some y.fields) := by
  have hm := sync_find a b a' b' ha hb h hna hnb hfresh σ
  rw [hx, hy] at hm
  constructor
  · rintro ⟨hxs, hys⟩
    rw [hm.1, hm.2]
    simp [mergeOutC, mergeOutS, hxs, hys]
  · rintro ⟨hxs, hys⟩
    rw [hm.1, hm.2]
    simp [mergeOutC, mergeOutS, hxs, hys]

/-- Witness for C2 at a concrete client edit against a stale server. -/
theorem C2_changed_side_wins_witness :
    (findSync 1 c2a'.items).map SItem.fields = some c2x.fields ∧
    (findSync 1 c2b'.items).map SItem.fields = some c2x.fields :=
  (C2_changed_side_wins c2a c2b c2a' c2b' rfl rfl
    (by decide) (by decide)
    (by
      intro x hx hnew
      simp [c2a] at hx
      rw [hx] at hnew
      cases hnew)
    (by rfl) 1 c2x c2y rfl rfl).1 ⟨rfl, rfl⟩

/-! ## Claim C3: the id invariant -/

theorem set_get_self {α : Type} (l : List α) (i : Nat) (a : α)
    (h : l.get? i = some a) : l.set i a = l := by
  induction l generalizing i with
  | nil => cases h
  | cons x xs ih =>
      cases i with
      | zero =>
          have h2 : x = a := Option.some.inj h
          show a :: xs = x :: xs
          rw [h2]
      | succ n =>
          show x :: xs.set n a = x :: xs
          rw [ih n h]

theorem length_mapIndicesToIds (n : Nat) (l : List (SItem F)) :
    (mapIndicesToIds n l).length = l.length := by
  induction l generalizing n with
  | nil => rfl
  | cons x xs ih => simp [mapIndicesToIds, ih]

theorem map_id_mapIndicesToIds (n : Nat) (l : List (SItem F)) :
    (mapIndicesToIds n l).map SItem.id = List.range' n l.length := by
  induction l generalizing n with
  | nil => rfl
  | cons x xs ih => simp [mapIndicesToIds, List.range'_succ, ih]

theorem idsMatch_mapIndicesToIds (l : List (SItem F)) :
    idsMatchPositions (mapIndicesToIds 0 l) := by
  unfold idsMatchPositions
  rw [map_id_mapIndicesToIds, length_mapIndicesToIds, List.range_eq_range']

theorem idsMatch_syncSelfItems (items : List (SItem F)) :
    idsMatchPositions (syncSelfItems items) := by
  unfold idsMatchPositions syncSelfItems
  have h1 : ∀ l : List (SItem F),
      (l.map (fun it => { it with state := ItemState.unchanged })).map SItem.id
        = l.map SItem.id := by
    intro l
    rw [List.map_map]
    rfl
  rw [h1, List.length_map, map_id_mapIndicesToIds, length_mapIndicesToIds,
    List.range_eq_range']

theorem idsMatch_append (items : List (SItem F)) (z : SItem F)
    (h : idsMatchPositions items) (hz : z.id = items.length) :
    idsMatchPositions (items ++ [z]) := by
  unfold idsMatchPositions at h ⊢
  rw [List.map_append, h, List.length_append]
  simp [hz, List.range_succ]

theorem idsMatch_set (items : List (SItem F)) (i : Nat) (x z : SItem F)
    (h : idsMatchPositions items) (hg : items.get? i = some x)
    (hz : z.id = x.id) : idsMatchPositions (items.set i z) := by
  have hlt : i < items.length := by
    by_contra hge
    rw [List.get?_eq_none.mpr (Nat.le_of_not_lt hge)] at hg
    cases hg
  have hxi : x.id = i := by
    have h2 : (items.map SItem.id).get? i = some x.id := by
      rw [List.get?_map, hg]
      rfl
    rw [h] at h2
    rw [List.get?_range hlt] at h2
    exact (Option.some.inj h2).symm
  unfold idsMatchPositions at h ⊢
  rw [List.map_set, List.length_set, h, hz, hxi]
  exact set_get_self _ i i (List.get?_range hlt)

theorem idsMatch_markRemoved (L : SyncList F) (i : Nat) (L' : SyncList F)
    (h : L.markRemoved i = some L') (hm : idsMatchPositions L.items) :
    idsMatchPositions L'.items := by
  unfold SyncList.markRemoved at h
  by_cases hlt : i < L.items.length
  · rw [dif_pos hlt] at h
    try dsimp only at h
    by_cases hrem : (L.items.get ⟨i, hlt⟩).state = ItemState.removed
    · rw [if_pos hrem] at h
      cases h
    · rw [if_neg hrem] at h
      by_cases hsrv : L.server = true
      · rw [if_pos hsrv] at h
        have h2 := Option.some.inj h
        rw [← h2]
        exact idsMatch_mapIndicesToIds _
      · rw [if_neg hsrv] at h
        have h2 := Option.some.inj h
        rw [← h2]
        exact idsMatch_set _ i (L.items.get ⟨i, hlt⟩) _ hm
          (List.get?_eq_get hlt) rfl
  · rw [dif_neg hlt] at h
    cases h

theorem idsMatch_modifyTodo (l : TdListM) (i : Nat) (f : TodoItem → TodoItem)
    (hf : ∀ t, (f t).id = t.id)
    (ih : idsMatchPositions l.todos.items ∧ idsMatchPositions l.tasks.items) :
    idsMatchPositions (l.modifyTodo i f).todos.items ∧
    idsMatchPositions (l.modifyTodo i f).tasks.items := by
  unfold TdListM.modifyTodo
  cases hg : l.todos.items.get? i with
  | none => exact ih
  | some t => exact ⟨idsMatch_set _ i t (f t) ih.1 hg (hf t), ih.2⟩

theorem idsMatch_modifyTask (l : TdListM) (i : Nat) (f : TaskItem → TaskItem)
    (hf : ∀ t, (f t).id = t.id)
    (ih : idsMatchPositions l.todos.items ∧ idsMatchPositions l.tasks.items) :
    idsMatchPositions (l.modifyTask i f).todos.items ∧
    idsMatchPositions (l.modifyTask i f).tasks.items := by
  unfold TdListM.modifyTask
  cases hg : l.tasks.items.get? i with
  | none => exact ih
  | some t => exact ⟨ih.1, idsMatch_set _ i t (f t) ih.2 hg (hf t)⟩

theorem idsMatch_removeTodoOp (l : TdListM) (i : Nat)
    (ih : idsMatchPositions l.todos.items ∧ idsMatchPositions l.tasks.items) :
    idsMatchPositions ((l.removeTodo i).getD l).todos.items ∧
    idsMatchPositions ((l.removeTodo i).getD l).tasks.items := by
  unfold TdListM.removeTodo
  cases hm : SyncList.markRemoved l.todos i with
  | none => exact ih
  | some L' => exact ⟨idsMatch_markRemoved _ i L' hm ih.1, ih.2⟩

theorem idsMatch_removeTaskOp (l : TdListM) (i : Nat)
    (ih : idsMatchPositions l.todos.items ∧ idsMatchPositions l.tasks.items) :
    idsMatchPositions ((l.removeTask i).getD l).todos.items ∧
    idsMatchPositions ((l.removeTask i).getD l).tasks.items := by
  unfold TdListM.removeTask
  cases hm : SyncList.markRemoved l.tasks i with
  | none => exact ih
  | some L' => exact ⟨ih.1, idsMatch_markRemoved _ i L' hm ih.2⟩

theorem sync_shapes [DecidableEq F] (a b : SyncList F)
    (p : SyncList F × SyncList F) (h : SyncList.sync a b = some p) :
    (∃ u, p.1.items = syncSelfItems u) ∧
    (∃ v, p.2.items = syncSelfItems v) := by
  unfold SyncList.sync mergeRun at h
  split at h
  · cases h
  · split at h
    · have h2 := Option.some.inj h
      rw [← h2]
      exact ⟨⟨_, rfl⟩, ⟨_, rfl⟩⟩
    · have h2 := Option.some.inj h
      rw [← h2]
      exact ⟨⟨_, rfl⟩, ⟨_, rfl⟩⟩

theorem tdSync_shapes (today : Date) (a b : TdListM) (p : TdListM × TdListM)
    (h : TdListM.sync today a b = some p) :
    (∃ u, p.1.todos.items = syncSelfItems u) ∧
    (∃ u, p.1.tasks.items = syncSelfItems u) ∧
    (∃ u, p.2.todos.items = syncSelfItems u) ∧
    (∃ u, p.2.tasks.items = syncSelfItems u) := by
  unfold TdListM.sync at h
  dsimp only at h
  cases h1 : SyncList.sync (a.removeOldTodos today).todos
      (b.removeOldTodos today).todos with
  | none => rw [h1] at h; cases h
  | some pt =>
      cases h2 : SyncList.sync (a.removeOldTodos today).tasks
          (b.removeOldTodos today).tasks with
      | none => rw [h1, h2] at h; cases h
      | some pk =>
          rw [h1, h2] at h
          have h3 := Option.some.inj h
          rw [← h3]
          obtain ⟨s1, s2⟩ := sync_shapes _ _ _ h1
          obtain ⟨s3, s4⟩ := sync_shapes _ _ _ h2
          exact ⟨s1, s3, s2, s4⟩

/-- C3, counterexample to the claim as stated: on a client,
`remove_todo` only tombstones the item and does not renumber, so after
add, add, remove(0) the single live item sits at live position 0 but
keeps id 1. -/
theorem C3_counterexample :
    Reachable c3list ∧ ¬ idsMatchPositions (liveItems c3list.todos.items) := by
  constructor
  · exact Reachable.step _ (Reachable.step _ (Reachable.step _ Reachable.client))
  · intro h
    unfold idsMatchPositions at h
    have h2 : ([1] : List Nat) = [0] := h
    cases h2

/-- C3 (amended): after every reachable sequence of public operations
the id of every item — tombstones included — equals its 0-based
position in the raw underlying vector of its collection.  (The claim's
live-position form holds whenever the collection carries no tombstones,
in particular on server-role lists and right after any sync or
self-sync; a client tombstone shifts the live positions below it until
the next sweep.) -/
theorem C3_ids_match_raw_positions (l : TdListM) (h : Reachable l) :
    idsMatchPositions l.todos.items ∧ idsMatchPositions l.tasks.items := by
  induction h with
  | client => exact ⟨rfl, rfl⟩
  | server => exact ⟨rfl, rfl⟩
  | step op hl ih =>
      cases op with
      | addTodo t => exact ⟨idsMatch_append _ _ ih.1 rfl, ih.2⟩
      | addTask t => exact ⟨ih.1, idsMatch_append _ _ ih.2 rfl⟩
      | removeTodo i => exact idsMatch_removeTodoOp _ i ih
      | removeTask i => exact idsMatch_removeTaskOp _ i ih
      | setTodoBody i b => exact idsMatch_modifyTodo _ i _ (fun t => rfl) ih
      | setTodoWeekday i w today =>
          exact idsMatch_modifyTodo _ i _ (fun t => rfl) ih
      | setTodoDone i d today =>
          exact idsMatch_modifyTodo _ i _ (fun t => rfl) ih
      | setTaskBody i b => exact idsMatch_modifyTask _ i _ (fun t => rfl) ih
      | setTaskWeekdays i ws =>
          exact idsMatch_modifyTask _ i _ (fun t => rfl) ih
      | addTaskWeekday i w =>
          exact idsMatch_modifyTask _ i _ (fun t => rfl) ih
      | removeTaskWeekday i w =>
          exact idsMatch_modifyTask _ i _ (fun t => rfl) ih
      | setTaskDone i d date =>
          exact idsMatch_modifyTask _ i _ (fun t => rfl) ih
      | selfSync today =>
          exact ⟨idsMatch_syncSelfItems _, idsMatch_syncSelfItems _⟩
      | syncWith today other =>
          show idsMatchPositions (match TdListM.sync today _ other with
              | some p => p.1 | none => _).todos.items ∧
            idsMatchPositions (match TdListM.sync today _ other with
              | some p => p.1 | none => _).tasks.items
          cases hr : TdListM.sync today _ other with
          | none => exact ih
          | some p =>
              obtain ⟨⟨u, hu⟩, ⟨v, hv⟩, _, _⟩ := tdSync_shapes today _ other p hr
              show idsMatchPositions p.1.todos.items ∧
                idsMatchPositions p.1.tasks.items
              exact ⟨by rw [hu]; exact idsMatch_syncSelfItems u,
                by rw [hv]; exact idsMatch_syncSelfItems v⟩
      | syncAsPeer today peer =>
          show idsMatchPositions (match TdListM.sync today peer _ with
              | some p => p.2 | none => _).todos.items ∧
            idsMatchPositions (match TdListM.sync today peer _ with
              | some p => p.2 | none => _).tasks.items
          cases hr : TdListM.sync today peer _ with
          | none => exact ih
          | some p =>
              obtain ⟨_, _, ⟨u, hu⟩, ⟨v, hv⟩⟩ := tdSync_shapes today peer _ p hr
              show idsMatchPositions p.2.todos.items ∧
                idsMatchPositions p.2.tasks.items
              exact ⟨by rw [hu]; exact idsMatch_syncSelfItems u,
                by rw [hv]; exact idsMatch_syncSelfItems v⟩

/-- Witness for C3 at a concrete reachable replica. -/
theorem C3_ids_match_raw_positions_witness :
    idsMatchPositions c7list.todos.items ∧
    idsMatchPositions c7list.tasks.items :=
  C3_ids_match_raw_positions c7list
    (Reachable.step (Op.addTodo (mkTodo "r" 0 4)) Reachable.client)

/-! ## Claim C4: the stale-Todo pre-pass -/

/-- C4, confirmed: the pre-pass marks a `Todo` `Removed` exactly when it
is completed and today is strictly after its completion date; an item
completed on day `d` is untouched when today is `d` and marked from
`d + 1` on; never-completed items are never touched; a client retains
every (marked) item while a server drops exactly the marked ones. -/
theorem C4_remove_old_marks_exactly (l : TdListM) (today : Date) :
    (∀ t : TodoItem, t.state ≠ ItemState.removed →
      ((markOldTodo today t).state = ItemState.removed ↔
        ∃ d, t.fields.done = some d ∧ d < today)) ∧
    (∀ t : TodoItem, t.fields.done = none → markOldTodo today t = t) ∧
    (∀ (t : TodoItem) (d : Date), t.fields.done = some d →
      (markOldTodo d t = t ∧
        (markOldTodo (d + 1) t).state = ItemState.removed)) ∧
    ((l.removeOldTodos today).todos.items =
      if l.server = true
      then liveItems (l.todos.items.map (markOldTodo today))
      else l.todos.items.map (markOldTodo today)) := by
  refine ⟨?_, ?_, ?_, ?_⟩
  · intro t ht
    unfold markOldTodo todoCanRemove
    cases hd : t.fields.done with
    | none => simp [ht, hd]
    | some d =>
        by_cases hlt : d < today
        · simp [hd, hlt]
        · simp [hd, hlt, ht]
  · intro t hd
    unfold markOldTodo todoCanRemove
    simp [hd]
  · intro t d hd
    constructor
    · unfold markOldTodo todoCanRemove
      simp [hd]
    · unfold markOldTodo todoCanRemove
      simp [hd]
  · rfl

/-- Witness for C4 on a `Todo` completed on day 3: untouched on day 3,
marked `Removed` on day 4. -/
theorem C4_remove_old_marks_exactly_witness :
    markOldTodo 3 c4todo = c4todo ∧
    (markOldTodo 4 c4todo).state = ItemState.removed :=
  (C4_remove_old_marks_exactly c4list 3).2.2.1 c4todo 3 rfl

/-! ## Claim C5: setters and the Changed marker -/

/-- C5, code bug: every public setter reachable through the mutable
handles sets the marker to `Changed` — except `Task::set_done`, which
only updates `done_map` and leaves the marker as it was, so marking a
recurring task done is invisible to the next sync. -/
theorem C5_setters_mark_changed :
    (∀ (t : TodoItem) (b : String),
      (todoSetBody t b).state = ItemState.changed) ∧
    (∀ (t : TodoItem) (w : Wd) (today : Date),
      (todoSetWeekday t w today).state = ItemState.changed) ∧
    (∀ (t : TodoItem) (d : Bool) (today : Date),
      (todoSetDone t d today).state = ItemState.changed) ∧
    (∀ (t : TaskItem) (b : String),
      (taskSetBody t b).state = ItemState.changed) ∧
    (∀ (t : TaskItem) (ws : List Wd),
      (taskSetWeekdays t ws).state = ItemState.changed) ∧
    (∀ (t : TaskItem) (w : Wd),
      (taskAddWeekday t w).state = ItemState.changed) ∧
    (∀ (t : TaskItem) (w : Wd),
      (taskRemoveWeekday t w).state = ItemState.changed) ∧
    (∀ (t : TaskItem) (d : Bool) (date : Date),
      (taskSetDone t d date).state = t.state) :=
  ⟨fun _ _ => rfl, fun _ _ _ => rfl, fun _ _ _ => rfl, fun _ _ => rfl,
   fun _ _ => rfl, fun _ _ => rfl, fun _ _ => rfl, fun _ _ _ => rfl⟩

/-! ## Claim C7: remove-by-id -/

/-- C7, confirmed: `remove_todo(id)` fails exactly when `id` is at or
past the raw vector length or the item there is already `Removed`; on
failure nothing is produced (the Rust code returns before mutating), and
on success the item is marked `Removed` in place, with a server-role
collection additionally dropping tombstones and renumbering at once. -/
theorem C7_remove_todo_spec (l : TdListM) (i : Nat) :
    (l.removeTodo i = none ↔
      l.todos.items.length ≤ i ∨
      ∃ x, l.todos.items.get? i = some x ∧ x.state = ItemState.removed) ∧
    (∀ l', l.removeTodo i = some l' →
      ∃ x, l.todos.items.get? i = some x ∧ x.state ≠ ItemState.removed ∧
        l'.tasks = l.tasks ∧ l'.server = l.server ∧
        l'.todos.server = l.todos.server ∧
        l'.todos.items =
          (if l.todos.server = true
           then mapIndicesToIds 0 (liveItems
             (l.todos.items.set i { x with state := ItemState.removed }))
           else l.todos.items.set i { x with state := ItemState.removed })) := by
  unfold TdListM.removeTodo SyncList.markRemoved
  by_cases hlt : i < l.todos.items.length
  · rw [dif_pos hlt]
    dsimp only
    by_cases hrem : (l.todos.items.get ⟨i, hlt⟩).state = ItemState.removed
    · rw [if_pos hrem]
      constructor
      · exact ⟨fun _ => Or.inr ⟨_, List.get?_eq_get hlt, hrem⟩, fun _ => rfl⟩
      · intro l' h
        cases h
    · rw [if_neg hrem]
      by_cases hsrv : l.todos.server = true
      · rw [if_pos hsrv]
        constructor
        · constructor
          · intro h
            exact Option.noConfusion h
          · intro h
            rcases h with hle | ⟨x, hx, hxs⟩
            · exact absurd hlt (Nat.not_lt.mpr hle)
            · rw [List.get?_eq_get hlt] at hx
              exact absurd (by
                rw [← Option.some.inj hx] at hxs
                exact hxs) hrem
        · intro l' h
          have h2 := Option.some.inj h
          refine ⟨l.todos.items.get ⟨i, hlt⟩, List.get?_eq_get hlt, hrem,
            ?_, ?_, ?_, ?_⟩
          · rw [← h2]
          · rw [← h2]
          · rw [← h2]
          · rw [← h2, if_pos hsrv]
      · rw [if_neg hsrv]
        constructor
        · constructor
          · intro h
            exact Option.noConfusion h
          · intro h
            rcases h with hle | ⟨x, hx, hxs⟩
            · exact absurd hlt (Nat.not_lt.mpr hle)
            · rw [List.get?_eq_get hlt] at hx
              exact absurd (by
                rw [← Option.some.inj hx] at hxs
                exact hxs) hrem
        · intro l' h
          have h2 := Option.some.inj h
          refine ⟨l.todos.items.get ⟨i, hlt⟩, List.get?_eq_get hlt, hrem,
            ?_, ?_, ?_, ?_⟩
          · rw [← h2]
          · rw [← h2]
          · rw [← h2]
          · rw [← h2, if_neg hsrv]
  · rw [dif_neg hlt]
    constructor
    · exact ⟨fun _ => Or.inl (Nat.le_of_not_lt hlt), fun _ => rfl⟩
    · intro l' h
      cases h

/-- Witness for C7: removing a nonexistent id fails. -/
theorem C7_remove_todo_spec_witness : c7list.removeTodo 1 = none :=
  (C7_remove_todo_spec c7list 1).1.mpr (Or.inl (by decide))

/-! ## Claim C9: role-misuse precondition -/

/-- C9, confirmed: the merge signals the role-precondition violation
(panic, before touching any item) exactly when the two inputs carry the
same role flag — two servers or two clients; with one of each it never
does. -/
theorem C9_merge_role_precondition {F : Type} [DecidableEq F]
    (a b : SyncList F) :
    SyncList.sync a b = none ↔ a.server = b.server := by
  unfold SyncList.sync
  by_cases h : a.server = b.server
  · simp [h]
  · simp only [h, if_false]
    by_cases h2 : a.server = true <;> simp [h2, h]

/-! ## Claim C10: tombstones stay addressable on a client -/

theorem modifyTodo_get (l : TdListM) (i : Nat) (f : TodoItem → TodoItem)
    (t : TodoItem) (hg : l.todos.items.get? i = some t) :
    (l.modifyTodo i f).todos.items.get? i = some (f t) := by
  have hlt : i < l.todos.items.length := by
    by_contra hge
    rw [List.get?_eq_none.mpr (Nat.le_of_not_lt hge)] at hg
    cases hg
  unfold TdListM.modifyTodo
  rw [hg]
  show (l.todos.items.set i (f t)).get? i = some (f t)
  rw [List.get?_eq_getElem?]
  exact List.getElem?_set_self hlt

/-- C10, confirmed: on a client-role collection a successful
`remove_todo(id)` leaves the tombstone at raw index `id`, so
`get_todo_mut(id)` still returns it (now marked `Removed`), its setters
still reach it, and it no longer appears among the live items. -/
theorem C10_tombstone_indexable (l : TdListM) (i : Nat) (l' : TdListM)
    (hclient : l.todos.server = false) (h : l.removeTodo i = some l') :
    ∃ x, l.todos.items.get? i = some x ∧
      l'.getTodo i = some { x with state := ItemState.removed } ∧
      (∀ z ∈ liveItems l'.todos.items,
        z ≠ { x with state := ItemState.removed }) ∧
      (∀ f : TodoItem → TodoItem,
        (l'.modifyTodo i f).todos.items.get? i
          = some (f { x with state := ItemState.removed })) := by
  unfold TdListM.removeTodo SyncList.markRemoved at h
  by_cases hlt : i < l.todos.items.length
  · rw [dif_pos hlt] at h
    try dsimp only at h
    by_cases hrem : (l.todos.items.get ⟨i, hlt⟩).state = ItemState.removed
    · rw [if_pos hrem] at h
      cases h
    · rw [if_neg hrem] at h
      rw [if_neg (by rw [hclient]; exact Bool.false_ne_true)] at h
      have h2 := Option.some.inj h
      have hgot : l'.todos.items.get? i
          = some { l.todos.items.get ⟨i, hlt⟩ with state := ItemState.removed } := by
        rw [← h2]
        show (l.todos.items.set i _).get? i = _
        rw [List.get?_eq_getElem?]
        exact List.getElem?_set_self hlt
      refine ⟨l.todos.items.get ⟨i, hlt⟩, List.get?_eq_get hlt, hgot, ?_, ?_⟩
      · intro z hz hcontra
        have hzs : z.state ≠ ItemState.removed := by
          have := List.mem_filter.mp hz
          simpa using this.2
        rw [hcontra] at hzs
        exact hzs rfl
      · intro f
        exact modifyTodo_get l' i f _ hgot
  · rw [dif_neg hlt] at h
    cases h

/-! ## Claim C6: client_sync failure atomicity -/

/-- C6, counterexample to the claim as stated: an exchange that fails
only at the final confirmation (the server answers something other than
`"ok"`) leaves `client_sync` returning an error while the in-memory
replica has already been replaced by the merged result. -/
theorem C6_counterexample :
    clientSync 0 c6parse c6auth c6env c6client
      = some (Except.error NError.unknown, c6merged) ∧
    c6merged ≠ c6client := by
  constructor
  · rfl
  · decide

/-- C6 (amended): when `client_sync` returns an error, the local replica
is either exactly its pre-call state (failure at or before the merge:
connect, challenge, authentication, session id, deserialization) or
exactly the fully merged client-side result of `TdList::sync` against
the received server replica (failure while sending the merged list or
reading/validating the confirmation); no intermediate state exists, and
`client_sync` itself persists nothing. -/
theorem C6_client_sync_failure_states (today : Date)
    (parse : List Nat → Except NError TdListM) (authData : List Nat)
    (env : NetEnv) (list : TdListM) (res : Except NError Unit)
    (flist : TdListM)
    (h : clientSync today parse authData env list = some (res, flist))
    (e : NError) (he : res = Except.error e) :
    flist = list ∨
    ∃ payload srv p, parse payload = Except.ok srv ∧
      TdListM.sync today list srv = some p ∧ flist = p.1 := by
  unfold clientSync at h
  by_cases hsrv : list.server = true
  · rw [if_pos hsrv] at h
    cases h
  · rw [if_neg hsrv] at h
    cases hc : env.conn with
    | some e1 =>
        rw [hc] at h
        exact Or.inl (congrArg Prod.snd (Option.some.inj h)).symm
    | none =>
    rw [hc] at h
    try dsimp only at h
    cases hw1 : env.w1 with
    | some e1 =>
        rw [hw1] at h
        exact Or.inl (congrArg Prod.snd (Option.some.inj h)).symm
    | none =>
    rw [hw1] at h
    try dsimp only at h
    cases hr1 : env.r1 with
    | error e1 =>
        rw [hr1] at h
        exact Or.inl (congrArg Prod.snd (Option.some.inj h)).symm
    | ok msg =>
    rw [hr1] at h
    try dsimp only at h
    by_cases hlen : msg.length < 16
    · rw [if_pos hlen] at h
      exact Or.inl (congrArg Prod.snd (Option.some.inj h)).symm
    · rw [if_neg hlen] at h
      try dsimp only at h
      by_cases hauth : msg.drop 8 ≠ authData
      · rw [if_pos hauth] at h
        exact Or.inl (congrArg Prod.snd (Option.some.inj h)).symm
      · rw [if_neg hauth] at h
        cases hw2 : env.w2 with
        | some e1 =>
            rw [hw2] at h
            exact Or.inl (congrArg Prod.snd (Option.some.inj h)).symm
        | none =>
        rw [hw2] at h
        try dsimp only at h
        cases hr2 : env.r2 with
        | error e1 =>
            rw [hr2] at h
            exact Or.inl (congrArg Prod.snd (Option.some.inj h)).symm
        | ok m2 =>
        rw [hr2] at h
        try dsimp only at h
        cases hcs : checkSid (List.take 8 msg) m2 with
        | error e1 =>
            rw [hcs] at h
            exact Or.inl (congrArg Prod.snd (Option.some.inj h)).symm
        | ok payload =>
        rw [hcs] at h
        try dsimp only at h
        cases hp : parse payload with
        | error e1 =>
            rw [hp] at h
            exact Or.inl (congrArg Prod.snd (Option.some.inj h)).symm
        | ok srv =>
        rw [hp] at h
        try dsimp only at h
        cases hm : TdListM.sync today list srv with
        | none =>
            rw [hm] at h
            cases h
        | some merged =>
        rw [hm] at h
        try dsimp only at h
        refine Or.inr ⟨payload, srv, merged, hp, hm, ?_⟩
        cases hw3 : env.w3 with
        | some e1 =>
            rw [hw3] at h
            exact (congrArg Prod.snd (Option.some.inj h)).symm
        | none =>
        rw [hw3] at h
        try dsimp only at h
        cases hr3 : env.r3 with
        | error e1 =>
            rw [hr3] at h
            exact (congrArg Prod.snd (Option.some.inj h)).symm
        | ok m3 =>
        rw [hr3] at h
        try dsimp only at h
        cases hcs3 : checkSid (List.take 8 msg) m3 with
        | error e1 =>
            rw [hcs3] at h
            exact (congrArg Prod.snd (Option.some.inj h)).symm
        | ok conf =>
        rw [hcs3] at h
        try dsimp only at h
        by_cases hok : conf = okBytes
        · rw [if_pos hok] at h
          have h2 := Option.some.inj h
          have hres : Except.ok () = res := congrArg Prod.fst h2
          rw [he] at hres
          cases hres
        · rw [if_neg hok] at h
          exact (congrArg Prod.snd (Option.some.inj h)).symm

/-- Witness for C6 at the concrete failing exchange: the replica ends in
the fully merged state. -/
theorem C6_client_sync_failure_states_witness :
    c6merged = c6client ∨
    ∃ payload srv p, c6parse payload = Except.ok srv ∧
      TdListM.sync 0 c6client srv = some p ∧ c6merged = p.1 :=
  C6_client_sync_failure_states 0 c6parse c6auth c6env c6client
    (Except.error NError.unknown) c6merged rfl NError.unknown rfl

/-! ## Claim C8: decrypt on short inputs -/

/-- C8, code bug: on an input shorter than the 28-byte salt+nonce
header, `decrypt` never reaches a returned decryption error for the
short length — it panics on an out-of-range slice (`&ciphertext[0..16]`
when shorter than 16 bytes, `&ciphertext[16..28]` otherwise, the latter
whenever the key derivation succeeds), and in no case returns a
plaintext. -/
theorem C8_decrypt_short_input_panics
    (kdf : List Nat → List Nat → Option (List Nat))
    (aeadOpen : List Nat → List Nat → List Nat → Option (List Nat))
    (ciphertext passwd : List Nat) (h : ciphertext.length < 28) :
    (ciphertext.length < 16 →
      decrypt kdf aeadOpen ciphertext passwd = CryptOutcome.panicked) ∧
    ((kdf passwd (ciphertext.take 16)).isSome = true →
      decrypt kdf aeadOpen ciphertext passwd = CryptOutcome.panicked) ∧
    (∀ msg, decrypt kdf aeadOpen ciphertext passwd ≠ CryptOutcome.ok msg) := by
  unfold decrypt
  refine ⟨?_, ?_, ?_⟩
  · intro h16
    rw [if_pos h16]
  · intro hk
    by_cases h16 : ciphertext.length < 16
    · rw [if_pos h16]
    · rw [if_neg h16]
      dsimp only
      cases hkc : kdf passwd (ciphertext.take 16) with
      | none => rw [hkc] at hk; cases hk
      | some k =>
          show (if ciphertext.length < 28 then CryptOutcome.panicked
            else _) = CryptOutcome.panicked
          rw [if_pos h]
  · intro msg
    by_cases h16 : ciphertext.length < 16
    · rw [if_pos h16]
      exact fun hc => CryptOutcome.noConfusion hc
    · rw [if_neg h16]
      dsimp only
      cases hkc : kdf passwd (ciphertext.take 16) with
      | none =>
          exact fun hc => CryptOutcome.noConfusion hc
      | some k =>
          show (if ciphertext.length < 28 then CryptOutcome.panicked
            else _) ≠ CryptOutcome.ok msg
          rw [if_pos h]
          exact fun hc => CryptOutcome.noConfusion hc

/-- Witness for C8: the empty ciphertext panics even under a total key
derivation. -/
theorem C8_decrypt_short_input_panics_witness :
    decrypt (fun _ _ => some []) (fun _ _ _ => none) [] []
      = CryptOutcome.panicked :=
  (C8_decrypt_short_input_panics (fun _ _ => some []) (fun _ _ _ => none)
    [] [] (by decide)).1 (by decide)

/-- Witness for C10 at a concrete client replica. -/
theorem C10_tombstone_indexable_witness :
    ∃ x, c10list.todos.items.get? 0 = some x ∧
      c10removed.getTodo 0 = some { x with state := ItemState.removed } ∧
      (∀ z ∈ liveItems c10removed.todos.items,
        z ≠ { x with state := ItemState.removed }) ∧
      (∀ f : TodoItem → TodoItem,
        (c10removed.modifyTodo 0 f).todos.items.get? 0
          = some (f { x with state := ItemState.removed })) :=
  C10_tombstone_indexable c10list 0 c10removed rfl rfl

end Mtd
